import Mathlib

/-!
Verification development for the scene-graph intersection and recursive
shading engine of a ray tracer written in Rust.

The source's `f64` scalars are modelled by `ℚ` (exact arithmetic, with
`Rat.sqrt` standing in for `f64::sqrt`; both agree on perfect squares, which
is the only case the concrete computations below exercise).  The IEEE special
values `±∞`/`NaN`, which the source manufactures deliberately inside the
cube/bounding-box slab test (`numerator * INFINITY`), are modelled by the
explicit type `F` below; everywhere else the source only ever produces finite
values from finite inputs.  Rust panics (`unwrap` on `None`, `partial_cmp`
on incomparable floats) are modelled by the error monad `Except Unit`.
-/

set_option maxHeartbeats 1600000
set_option maxRecDepth 8000

namespace RayTracer

/-- `misc.rs`: `pub const EPSILON: f64 = 1e-8`. -/
def EPSILON : ℚ := 1 / 100000000

/-- `misc.rs` `approx_equal`: `(a - b).abs() < 1e-5`. -/
def approxEqual (a b : ℚ) : Bool := |a - b| < 1 / 100000

/-- Model of `f64::powf b e`.  In this codebase `powf` is only applied with
`e = material.shininess`, an integer-valued float (default `200.`), where
`powf` agrees with iterated multiplication; non-integer exponents are outside
the rational model. -/
def powfQ (b e : ℚ) : ℚ := if e.den = 1 then b ^ e.num else 0

/-! ## Tuples (`tuple.rs`) -/

/-- `tuple.rs` `Tuple`: a homogeneous 4-component coordinate. -/
structure Tuple where
  x : ℚ
  y : ℚ
  z : ℚ
  w : ℚ
deriving DecidableEq

namespace Tuple

def point (x y z : ℚ) : Tuple := ⟨x, y, z, 1⟩

def vector (x y z : ℚ) : Tuple := ⟨x, y, z, 0⟩

def add (a b : Tuple) : Tuple := ⟨a.x + b.x, a.y + b.y, a.z + b.z, a.w + b.w⟩

def sub (a b : Tuple) : Tuple := ⟨a.x - b.x, a.y - b.y, a.z - b.z, a.w - b.w⟩

def neg (a : Tuple) : Tuple := ⟨-a.x, -a.y, -a.z, -a.w⟩

/-- `Mul<f64> for Tuple`. -/
def smul (a : Tuple) (s : ℚ) : Tuple := ⟨a.x * s, a.y * s, a.z * s, a.w * s⟩

/-- `Div<f64> for Tuple`. -/
def divQ (a : Tuple) (s : ℚ) : Tuple := ⟨a.x / s, a.y / s, a.z / s, a.w / s⟩

def dot (a b : Tuple) : ℚ := a.x * b.x + a.y * b.y + a.z * b.z + a.w * b.w

def magSq (a : Tuple) : ℚ := a.dot a

/-- `Tuple::magnitude` (the source asserts `is_vector` first; every live call
site passes a vector). -/
def magnitude (a : Tuple) : ℚ := Rat.sqrt (a.x ^ 2 + a.y ^ 2 + a.z ^ 2)

def normalize (a : Tuple) : Tuple := a.divQ a.magnitude

def cross (a b : Tuple) : Tuple :=
  vector (a.y * b.z - a.z * b.y) (a.z * b.x - a.x * b.z) (a.x * b.y - a.y * b.x)

/-- `self - normal * 2. * self.dot(normal)` -/
def reflect (a normal : Tuple) : Tuple :=
  a.sub ((normal.smul 2).smul (a.dot normal))

/-- Component index access (0 = x, 1 = y, 2 = z, otherwise w). -/
def comp (a : Tuple) (c : Nat) : ℚ :=
  match c with
  | 0 => a.x
  | 1 => a.y
  | 2 => a.z
  | _ => a.w

/-- `PartialEq for Tuple`: componentwise `approx_equal`. -/
def approxEq (a b : Tuple) : Bool :=
  approxEqual a.x b.x && approxEqual a.y b.y && approxEqual a.z b.z &&
    approxEqual a.w b.w

end Tuple

/-! ## Colors (`color.rs`) -/

structure Color where
  red : ℚ
  green : ℚ
  blue : ℚ
deriving DecidableEq

namespace Color

def black : Color := ⟨0, 0, 0⟩

def white : Color := ⟨1, 1, 1⟩

def add (a b : Color) : Color := ⟨a.red + b.red, a.green + b.green, a.blue + b.blue⟩

def sub (a b : Color) : Color := ⟨a.red - b.red, a.green - b.green, a.blue - b.blue⟩

/-- `Mul<f64> for Color`. -/
def smul (a : Color) (s : ℚ) : Color := ⟨a.red * s, a.green * s, a.blue * s⟩

/-- `Mul for Color` (Hadamard product). -/
def mul (a b : Color) : Color := ⟨a.red * b.red, a.green * b.green, a.blue * b.blue⟩

/-- `PartialEq for Color`. -/
def approxEq (a b : Color) : Bool :=
  approxEqual a.red b.red && approxEqual a.green b.green && approxEqual a.blue b.blue

end Color

/-! ## Matrices (`matrix2.rs`, `math/matrix3.rs`, `math/matrix4.rs`) -/

structure Matrix2 where
  m00 : ℚ
  m01 : ℚ
  m10 : ℚ
  m11 : ℚ
deriving DecidableEq

def Matrix2.determinant (m : Matrix2) : ℚ := m.m00 * m.m11 - m.m01 * m.m10

structure Matrix3 where
  m00 : ℚ
  m01 : ℚ
  m02 : ℚ
  m10 : ℚ
  m11 : ℚ
  m12 : ℚ
  m20 : ℚ
  m21 : ℚ
  m22 : ℚ
deriving DecidableEq

namespace Matrix3

def get (m : Matrix3) (r c : Nat) : ℚ :=
  match r, c with
  | 0, 0 => m.m00
  | 0, 1 => m.m01
  | 0, _ => m.m02
  | 1, 0 => m.m10
  | 1, 1 => m.m11
  | 1, _ => m.m12
  | _, 0 => m.m20
  | _, 1 => m.m21
  | _, _ => m.m22

/-- `Matrix3::submatrix`: drop row `rd` and column `cd` (the source realises
exactly this index shift through `cmp_to_offset`). -/
def submatrix (m : Matrix3) (rd cd : Nat) : Matrix2 :=
  let ri : Nat → Nat := fun i => if i < rd then i else i + 1
  let ci : Nat → Nat := fun j => if j < cd then j else j + 1
  ⟨m.get (ri 0) (ci 0), m.get (ri 0) (ci 1),
   m.get (ri 1) (ci 0), m.get (ri 1) (ci 1)⟩

def minor (m : Matrix3) (r c : Nat) : ℚ := (m.submatrix r c).determinant

def cofactor (m : Matrix3) (r c : Nat) : ℚ :=
  let rowSign : ℚ := if r % 2 = 0 then 1 else -1
  let colSign : ℚ := if c % 2 = 0 then 1 else -1
  rowSign * colSign * m.minor r c

/-- Cofactor expansion along row 0, as in the source. -/
def determinant (m : Matrix3) : ℚ :=
  m.get 0 0 * m.cofactor 0 0 + m.get 0 1 * m.cofactor 0 1 + m.get 0 2 * m.cofactor 0 2

end Matrix3

/-- `math/matrix4.rs` `Matrix4`, with rows stored as `Tuple`s
(matching `row_to_tuple`). -/
structure Matrix4 where
  r0 : Tuple
  r1 : Tuple
  r2 : Tuple
  r3 : Tuple
deriving DecidableEq

namespace Matrix4

def get (m : Matrix4) (r c : Nat) : ℚ :=
  match r with
  | 0 => m.r0.comp c
  | 1 => m.r1.comp c
  | 2 => m.r2.comp c
  | _ => m.r3.comp c

def identity : Matrix4 :=
  ⟨⟨1, 0, 0, 0⟩, ⟨0, 1, 0, 0⟩, ⟨0, 0, 1, 0⟩, ⟨0, 0, 0, 1⟩⟩

def transpose (m : Matrix4) : Matrix4 :=
  ⟨⟨m.get 0 0, m.get 1 0, m.get 2 0, m.get 3 0⟩,
   ⟨m.get 0 1, m.get 1 1, m.get 2 1, m.get 3 1⟩,
   ⟨m.get 0 2, m.get 1 2, m.get 2 2, m.get 3 2⟩,
   ⟨m.get 0 3, m.get 1 3, m.get 2 3, m.get 3 3⟩⟩

def submatrix (m : Matrix4) (rd cd : Nat) : Matrix3 :=
  let ri : Nat → Nat := fun i => if i < rd then i else i + 1
  let ci : Nat → Nat := fun j => if j < cd then j else j + 1
  ⟨m.get (ri 0) (ci 0), m.get (ri 0) (ci 1), m.get (ri 0) (ci 2),
   m.get (ri 1) (ci 0), m.get (ri 1) (ci 1), m.get (ri 1) (ci 2),
   m.get (ri 2) (ci 0), m.get (ri 2) (ci 1), m.get (ri 2) (ci 2)⟩

def minor (m : Matrix4) (r c : Nat) : ℚ := (m.submatrix r c).determinant

def cofactor (m : Matrix4) (r c : Nat) : ℚ :=
  let rowSign : ℚ := if r % 2 = 0 then 1 else -1
  let colSign : ℚ := if c % 2 = 0 then 1 else -1
  rowSign * colSign * m.minor r c

def determinant (m : Matrix4) : ℚ :=
  m.get 0 0 * m.cofactor 0 0 + m.get 0 1 * m.cofactor 0 1 +
    m.get 0 2 * m.cofactor 0 2 + m.get 0 3 * m.cofactor 0 3

/-- `Matrix4::inverse`: `None` when the determinant is approximately zero;
otherwise `result[col][row] = cofactor(row, col) / det`. -/
def inverse (m : Matrix4) : Option Matrix4 :=
  let det := m.determinant
  if approxEqual det 0 then none
  else
    some
      ⟨⟨m.cofactor 0 0 / det, m.cofactor 1 0 / det, m.cofactor 2 0 / det, m.cofactor 3 0 / det⟩,
       ⟨m.cofactor 0 1 / det, m.cofactor 1 1 / det, m.cofactor 2 1 / det, m.cofactor 3 1 / det⟩,
       ⟨m.cofactor 0 2 / det, m.cofactor 1 2 / det, m.cofactor 2 2 / det, m.cofactor 3 2 / det⟩,
       ⟨m.cofactor 0 3 / det, m.cofactor 1 3 / det, m.cofactor 2 3 / det, m.cofactor 3 3 / det⟩⟩

def col (m : Matrix4) (c : Nat) : Tuple :=
  ⟨m.r0.comp c, m.r1.comp c, m.r2.comp c, m.r3.comp c⟩

/-- `Mul for Matrix4`. -/
def mul (a b : Matrix4) : Matrix4 :=
  ⟨⟨a.r0.dot (b.col 0), a.r0.dot (b.col 1), a.r0.dot (b.col 2), a.r0.dot (b.col 3)⟩,
   ⟨a.r1.dot (b.col 0), a.r1.dot (b.col 1), a.r1.dot (b.col 2), a.r1.dot (b.col 3)⟩,
   ⟨a.r2.dot (b.col 0), a.r2.dot (b.col 1), a.r2.dot (b.col 2), a.r2.dot (b.col 3)⟩,
   ⟨a.r3.dot (b.col 0), a.r3.dot (b.col 1), a.r3.dot (b.col 2), a.r3.dot (b.col 3)⟩⟩

/-- `Mul<Tuple> for Matrix4`. -/
def mulT (m : Matrix4) (t : Tuple) : Tuple :=
  ⟨m.r0.dot t, m.r1.dot t, m.r2.dot t, m.r3.dot t⟩

/-- `PartialEq for Matrix4`: entrywise `approx_equal`. -/
def approxEq (a b : Matrix4) : Bool :=
  a.r0.approxEq b.r0 && a.r1.approxEq b.r1 && a.r2.approxEq b.r2 && a.r3.approxEq b.r3

def translation (x y z : ℚ) : Matrix4 :=
  ⟨⟨1, 0, 0, x⟩, ⟨0, 1, 0, y⟩, ⟨0, 0, 1, z⟩, ⟨0, 0, 0, 1⟩⟩

def scaling (x y z : ℚ) : Matrix4 :=
  ⟨⟨x, 0, 0, 0⟩, ⟨0, y, 0, 0⟩, ⟨0, 0, z, 0⟩, ⟨0, 0, 0, 1⟩⟩

end Matrix4

/-! ## Rays and lights (`ray.rs`, `light.rs`) -/

structure Ray where
  origin : Tuple
  direction : Tuple
deriving DecidableEq

def Ray.position (r : Ray) (t : ℚ) : Tuple := r.origin.add (r.direction.smul t)

def Ray.transformM (r : Ray) (m : Matrix4) : Ray :=
  ⟨m.mulT r.origin, m.mulT r.direction⟩

structure Light where
  position : Tuple
  intensity : Color
deriving DecidableEq

/-! ## IEEE special values (`f64` with `±INFINITY` / `NaN`)

The slab test in `shape/cube.rs` and the bounding boxes in `shape.rs`
deliberately produce `±INFINITY` (and, for zero numerators, `NaN`).  `F`
models an `f64` as either a finite rational or one of those special values,
with the IEEE semantics the source relies on. -/

inductive F where
  | nan : F
  | ninf : F
  | pinf : F
  | fin (q : ℚ) : F
deriving DecidableEq

namespace F

def isNaN : F → Bool
  | nan => true
  | _ => false

/-- IEEE addition (only the cases needed: `∞ + ∞ = ∞`, `∞ + (-∞) = NaN`,
`NaN` propagates). -/
def add : F → F → F
  | nan, _ => nan
  | _, nan => nan
  | pinf, ninf => nan
  | ninf, pinf => nan
  | pinf, _ => pinf
  | _, pinf => pinf
  | ninf, _ => ninf
  | _, ninf => ninf
  | fin a, fin b => fin (a + b)

/-- Finite scalar times an `F` value (`0 * ±∞ = NaN`). -/
def qMul (q : ℚ) : F → F
  | nan => nan
  | pinf => if q > 0 then pinf else if q < 0 then ninf else nan
  | ninf => if q > 0 then ninf else if q < 0 then pinf else nan
  | fin a => fin (q * a)

/-- `f - q` for finite `q` (`±∞ - finite = ±∞`). -/
def subQ : F → ℚ → F
  | nan, _ => nan
  | pinf, _ => pinf
  | ninf, _ => ninf
  | fin a, q => fin (a - q)

/-- `f / q`; only ever used with `|q| ≥ EPSILON`, hence `q ≠ 0`. -/
def divQ : F → ℚ → F
  | nan, _ => nan
  | pinf, q => if q < 0 then ninf else pinf
  | ninf, q => if q < 0 then pinf else ninf
  | fin a, q => fin (a / q)

/-- `f * INFINITY` (the `check_axis` parallel branch); `0 * ∞ = NaN`. -/
def mulInf : F → F
  | nan => nan
  | pinf => pinf
  | ninf => ninf
  | fin a => if a > 0 then pinf else if a < 0 then ninf else nan

/-- `f64::partial_cmp`: `none` iff either side is `NaN`. -/
def cmp : F → F → Option Ordering
  | nan, _ => none
  | _, nan => none
  | ninf, ninf => some .eq
  | ninf, _ => some .lt
  | _, ninf => some .gt
  | pinf, pinf => some .eq
  | pinf, _ => some .gt
  | _, pinf => some .lt
  | fin a, fin b =>
      some (if a < b then .lt else if b < a then .gt else .eq)

/-- IEEE `>` (false whenever a `NaN` is involved). -/
def gt (a b : F) : Bool := cmp a b == some .gt

/-- IEEE `<`. -/
def lt (a b : F) : Bool := cmp a b == some .lt

/-- `f64::min`: ignores a `NaN` argument. -/
def minIeee (a b : F) : F :=
  if a.isNaN then b else if b.isNaN then a else if gt a b then b else a

/-- `f64::max`: ignores a `NaN` argument. -/
def maxIeee (a b : F) : F :=
  if a.isNaN then b else if b.isNaN then a else if gt a b then a else b

/-- One fold step of `Iterator::max_by(|a, b| a.partial_cmp(b).unwrap())`:
panics (`Except.error`) on incomparable values, keeps the accumulator only
when strictly greater (so the *last* maximum wins, as in Rust). -/
def maxByStep (acc x : F) : Except Unit F :=
  match cmp acc x with
  | none => .error ()
  | some .gt => .ok acc
  | some _ => .ok x

/-- One fold step of `Iterator::min_by`: keeps the accumulator unless the new
element is strictly smaller (the *first* minimum wins, as in Rust). -/
def minByStep (acc x : F) : Except Unit F :=
  match cmp acc x with
  | none => .error ()
  | some .gt => .ok x
  | some _ => .ok acc

/-- `[a, b, c].iter().max_by(...p.unwrap()).unwrap()`. -/
def maxBy3 (a b c : F) : Except Unit F := do
  let s ← maxByStep a b
  maxByStep s c

/-- `[a, b, c].iter().min_by(...p.unwrap()).unwrap()`. -/
def minBy3 (a b c : F) : Except Unit F := do
  let s ← minByStep a b
  minByStep s c

/-- Projection back to the rational model (used where the source stores a
slab-test `t` into an `f64` field; the claims below never reach this with a
non-finite value, which can only arise when every direction component is
below `EPSILON`). -/
def toRatZero : F → ℚ
  | fin q => q
  | _ => 0

end F

/-- A `Tuple` whose components may be IEEE special values (bounding-box
corners; `Plane`'s box is infinite). -/
structure TupleF where
  x : F
  y : F
  z : F
  w : F
deriving DecidableEq

namespace TupleF

def pointF (x y z : F) : TupleF := ⟨x, y, z, .fin 1⟩

def ofTuple (t : Tuple) : TupleF := ⟨.fin t.x, .fin t.y, .fin t.z, .fin t.w⟩

/-- `Tuple::zip_with(f64::min)`. -/
def minIeee (a b : TupleF) : TupleF :=
  ⟨F.minIeee a.x b.x, F.minIeee a.y b.y, F.minIeee a.z b.z, F.minIeee a.w b.w⟩

/-- `Tuple::zip_with(f64::max)`. -/
def maxIeee (a b : TupleF) : TupleF :=
  ⟨F.maxIeee a.x b.x, F.maxIeee a.y b.y, F.maxIeee a.z b.z, F.maxIeee a.w b.w⟩

end TupleF

/-- Row(finite) · tuple(possibly infinite), with the source's left-to-right
summation order. -/
def Tuple.dotF (row : Tuple) (t : TupleF) : F :=
  (((F.qMul row.x t.x).add (F.qMul row.y t.y)).add (F.qMul row.z t.z)).add
    (F.qMul row.w t.w)

/-- `Mul<Tuple> for Matrix4` applied to a corner that may contain `±∞`. -/
def Matrix4.mulTF (m : Matrix4) (t : TupleF) : TupleF :=
  ⟨m.r0.dotF t, m.r1.dotF t, m.r2.dotF t, m.r3.dotF t⟩

/-! ## Cube slab test (`shape/cube.rs`) -/

/-- `cube.rs` `check_axis`.  Near-zero direction components multiply the
numerators by `INFINITY`; the final conditional swap uses IEEE `>` (false on
`NaN`, so a `NaN` pair is left in place). -/
def checkAxis (mi ma : F) (origin direction : ℚ) : F × F :=
  let tMinNum := mi.subQ origin
  let tMaxNum := ma.subQ origin
  let p : F × F :=
    if |direction| ≥ EPSILON then (tMinNum.divQ direction, tMaxNum.divQ direction)
    else (tMinNum.mulInf, tMaxNum.mulInf)
  if F.gt p.1 p.2 then (p.2, p.1) else p

/-- `cube.rs` free function `local_intersect(min, max, ray)`: the slab test.
`Except.error` models the `partial_cmp(..).unwrap()` panic that occurs when a
`NaN` (zero numerator times `INFINITY`) reaches `max_by`/`min_by`. -/
def cubeLocalIntersect (mi ma : TupleF) (r : Ray) : Except Unit (List F) := do
  let xt := checkAxis mi.x ma.x r.origin.x r.direction.x
  let yt := checkAxis mi.y ma.y r.origin.y r.direction.y
  let zt := checkAxis mi.z ma.z r.origin.z r.direction.z
  let tMin ← F.maxBy3 xt.1 yt.1 zt.1
  let tMax ← F.minBy3 xt.2 yt.2 zt.2
  if F.gt tMin tMax then pure [] else pure [tMin, tMax]

/-- `Cube::local_intersect`: the slab test against the unit cube `[-1,1]³`. -/
def Cube.localIntersect (r : Ray) : Except Unit (List F) :=
  cubeLocalIntersect (TupleF.pointF (.fin (-1)) (.fin (-1)) (.fin (-1)))
    (TupleF.pointF (.fin 1) (.fin 1) (.fin 1)) r

/-- `Cube::local_normal_at`. -/
def Cube.localNormalAt (p : Tuple) : Tuple :=
  let maxAbs := max |p.x| (max |p.y| |p.z|)
  if maxAbs = |p.x| then Tuple.vector p.x 0 0
  else if maxAbs = |p.y| then Tuple.vector 0 p.y 0
  else Tuple.vector 0 0 p.z

/-! ## Primitive shapes (`sphere.rs`, `plane.rs`, `cylinder.rs`, `cone.rs`,
`shape/triangle.rs`) -/

/-- `Sphere::local_intersect`: solve `|O + tD|² = 1`. -/
def Sphere.localIntersect (r : Ray) : List ℚ :=
  let sphereToRay := r.origin.sub (Tuple.point 0 0 0)
  let a := r.direction.magSq
  let b := 2 * r.direction.dot sphereToRay
  let c := sphereToRay.magSq - 1
  let discriminant := b ^ 2 - 4 * a * c
  if discriminant < 0 then []
  else
    [(-b - Rat.sqrt discriminant) / (2 * a), (-b + Rat.sqrt discriminant) / (2 * a)]

/-- `Sphere::local_normal_at`: `local_point - point(0,0,0)` (note the `w`). -/
def Sphere.localNormalAt (p : Tuple) : Tuple := p.sub (Tuple.point 0 0 0)

/-- `Plane::local_intersect`. -/
def Plane.localIntersect (r : Ray) : List ℚ :=
  if |r.direction.y| < EPSILON then []
  else [-r.origin.y / r.direction.y]

/-- `Plane::local_normal_at`. -/
def Plane.localNormalAt (_p : Tuple) : Tuple := Tuple.vector 0 1 0

/-- `cylinder.rs` `Cylinder { minimum, maximum, closed }`.  The source's
`f64` bounds (infinite by default) are modelled as rationals; none of the
claims constructs an unbounded cylinder. -/
structure Cylinder where
  minimum : ℚ
  maximum : ℚ
  closed : Bool
deriving DecidableEq

/-- `check_cap` (cylinder version, radius 1). -/
def Cylinder.checkCap (r : Ray) (t : ℚ) : Bool :=
  let x := r.origin.x + t * r.direction.x
  let z := r.origin.z + t * r.direction.z
  x ^ 2 + z ^ 2 ≤ 1

def Cylinder.intersectCaps (c : Cylinder) (r : Ray) : List ℚ :=
  if !c.closed || |r.direction.y| < EPSILON then []
  else
    let tMin := (c.minimum - r.origin.y) / r.direction.y
    let tMax := (c.maximum - r.origin.y) / r.direction.y
    [tMin, tMax].filter (fun t => Cylinder.checkCap r t)

def Cylinder.localIntersect (c : Cylinder) (r : Ray) : List ℚ :=
  let a := r.direction.x ^ 2 + r.direction.z ^ 2
  if |a| < EPSILON then c.intersectCaps r
  else
    let b := 2 * r.origin.x * r.direction.x + 2 * r.origin.z * r.direction.z
    let cc := r.origin.x ^ 2 + r.origin.z ^ 2 - 1
    let disc := b ^ 2 - 4 * a * cc
    if disc < 0 then []
    else
      let t0 := (-b - Rat.sqrt disc) / (2 * a)
      let t1 := (-b + Rat.sqrt disc) / (2 * a)
      let y0 := r.origin.y + t0 * r.direction.y
      let y1 := r.origin.y + t1 * r.direction.y
      ((if c.minimum < y0 ∧ y0 < c.maximum then [t0] else []) ++
        (if c.minimum < y1 ∧ y1 < c.maximum then [t1] else [])) ++
        c.intersectCaps r

def Cylinder.localNormalAt (c : Cylinder) (p : Tuple) : Tuple :=
  let dist := p.x ^ 2 + p.z ^ 2
  if dist < 1 ∧ p.y ≥ c.maximum - EPSILON then Tuple.vector 0 1 0
  else if dist < 1 ∧ p.y ≤ c.minimum + EPSILON then Tuple.vector 0 (-1) 0
  else Tuple.vector p.x 0 p.z

/-- `PartialEq for Cylinder`: compares only `minimum`/`maximum` (exact). -/
def Cylinder.eqb (a b : Cylinder) : Bool :=
  a.minimum = b.minimum && a.maximum = b.maximum

/-- `cone.rs` `Cone { minimum, maximum, closed }` (bounds modelled as
rationals, as for `Cylinder`). -/
structure Cone where
  minimum : ℚ
  maximum : ℚ
  closed : Bool
deriving DecidableEq

/-- `cone.rs` `check_cap`: cap radius is `|y|`. -/
def Cone.checkCap (r : Ray) (t : ℚ) : Bool :=
  let x := r.origin.x + t * r.direction.x
  let y := r.origin.y + t * r.direction.y
  let z := r.origin.z + t * r.direction.z
  x ^ 2 + z ^ 2 ≤ y ^ 2

def Cone.intersectCaps (c : Cone) (r : Ray) : List ℚ :=
  if !c.closed || |r.direction.y| < EPSILON then []
  else
    let tMin := (c.minimum - r.origin.y) / r.direction.y
    let tMax := (c.maximum - r.origin.y) / r.direction.y
    [tMin, tMax].filter (fun t => Cone.checkCap r t)

/-- `Cone::local_intersect`.  The early return requires *both* `|a| < ε` and
`|b| < ε`; with only `|a| < ε` a single linear root is prepended. -/
def Cone.localIntersect (c : Cone) (r : Ray) : List ℚ :=
  let a := r.direction.x ^ 2 - r.direction.y ^ 2 + r.direction.z ^ 2
  let b := 2 * r.origin.x * r.direction.x - 2 * r.origin.y * r.direction.y +
    2 * r.origin.z * r.direction.z
  let cc := r.origin.x ^ 2 - r.origin.y ^ 2 + r.origin.z ^ 2
  if |a| < EPSILON ∧ |b| < EPSILON then []
  else
    let linear : List ℚ := if |a| < EPSILON then [-cc / (2 * b)] else []
    let disc := b ^ 2 - 4 * a * cc
    if disc < 0 then []
    else
      let t0 := (-b - Rat.sqrt disc) / (2 * a)
      let t1 := (-b + Rat.sqrt disc) / (2 * a)
      let y0 := r.origin.y + t0 * r.direction.y
      let y1 := r.origin.y + t1 * r.direction.y
      ((linear ++ (if c.minimum < y0 ∧ y0 < c.maximum then [t0] else [])) ++
        (if c.minimum < y1 ∧ y1 < c.maximum then [t1] else [])) ++
        c.intersectCaps r

def Cone.localNormalAt (c : Cone) (p : Tuple) : Tuple :=
  let dist := p.x ^ 2 + p.z ^ 2
  let ySq := p.y ^ 2
  let y := if p.y > 0 then -Rat.sqrt dist else Rat.sqrt dist
  if dist < ySq ∧ p.y ≥ c.maximum - EPSILON then Tuple.vector 0 1 0
  else if dist < ySq ∧ p.y ≤ c.minimum + EPSILON then Tuple.vector 0 (-1) 0
  else Tuple.vector p.x y p.z

/-- `PartialEq for Cone`. -/
def Cone.eqb (a b : Cone) : Bool :=
  a.minimum = b.minimum && a.maximum = b.maximum

/-- `shape/triangle.rs` `UVT`. -/
structure UVT where
  t : ℚ
  u : ℚ
  v : ℚ
deriving DecidableEq

inductive TriangleKind where
  | flat : TriangleKind
  | smooth (n1 n2 n3 : Tuple) : TriangleKind
deriving DecidableEq

structure Triangle where
  p1 : Tuple
  p2 : Tuple
  p3 : Tuple
  kind : TriangleKind
deriving DecidableEq

namespace Triangle

def edge1 (t : Triangle) : Tuple := t.p2.sub t.p1

def edge2 (t : Triangle) : Tuple := t.p3.sub t.p1

def normal (t : Triangle) : Tuple := (t.edge2.cross t.edge1).normalize

def localNormalAt (t : Triangle) (uvt : UVT) : Tuple :=
  match t.kind with
  | .flat => t.normal
  | .smooth n1 n2 n3 =>
      (((n2.smul uvt.u).add (n3.smul uvt.v)).add (n1.smul (1 - uvt.u - uvt.v))).normalize

/-- `Triangle::local_intersect`: Möller–Trumbore. -/
def localIntersect (tr : Triangle) (r : Ray) : List UVT :=
  let dirCrossE2 := r.direction.cross tr.edge2
  let det := tr.edge1.dot dirCrossE2
  if |det| < EPSILON then []
  else
    let f := 1 / det
    let p1ToOrigin := r.origin.sub tr.p1
    let u := f * p1ToOrigin.dot dirCrossE2
    if u < 0 ∨ u > 1 then []
    else
      let originCrossE1 := p1ToOrigin.cross tr.edge1
      let v := f * r.direction.dot originCrossE1
      if v < 0 ∨ u + v > 1 then []
      else
        let t := f * tr.edge2.dot originCrossE1
        [⟨t, u, v⟩]

/-- `PartialEq` (derived): vertices by approximate `Tuple` equality, kind
with approximate normals. -/
def eqb (a b : Triangle) : Bool :=
  a.p1.approxEq b.p1 && a.p2.approxEq b.p2 && a.p3.approxEq b.p3 &&
    (match a.kind, b.kind with
     | .flat, .flat => true
     | .smooth a1 a2 a3, .smooth b1 b2 b3 =>
         a1.approxEq b1 && a2.approxEq b2 && a3.approxEq b3
     | _, _ => false)

end Triangle

/-! ## Patterns and materials (`pattern.rs`, `material.rs`) -/

inductive PatternType where
  | striped (a b : Color) : PatternType
  | gradient (a b : Color) : PatternType
  | ring (a b : Color) : PatternType
  | checkered (a b : Color) : PatternType
deriving DecidableEq

structure Pattern where
  transform : Matrix4
  patternType : PatternType
deriving DecidableEq

namespace Pattern

/-- Rust `%` (remainder truncating toward zero) on the floored coordinate. -/
def evenFloor (q : ℚ) : Bool := Int.tmod q.floor 2 = 0

def patternAt (p : Pattern) (point : Tuple) : Color :=
  match p.patternType with
  | .striped a b => if evenFloor point.x then a else b
  | .gradient a b =>
      let t := point.x - (point.x.floor : ℚ)
      a.add ((b.sub a).smul t)
  | .ring a b =>
      if evenFloor (point.x ^ 2 + point.z ^ 2) then a else b
  | .checkered a b =>
      if Int.tmod (point.x.floor + point.y.floor + point.z.floor) 2 = 0 then a else b

end Pattern

structure Material where
  color : Color
  ambient : ℚ
  diffuse : ℚ
  specular : ℚ
  shininess : ℚ
  reflective : ℚ
  pattern : Option Pattern
  transparency : ℚ
  refractiveIndex : ℚ
deriving DecidableEq

namespace Material

/-- `Material::new`. -/
def new : Material :=
  { color := Color.white, ambient := 1/10, diffuse := 9/10, specular := 9/10,
    shininess := 200, reflective := 0, pattern := none, transparency := 0,
    refractiveIndex := 1 }

/-- `PartialEq for Material`: compares only color, ambient, diffuse,
specular, shininess (not reflective/pattern/transparency/refractive_index). -/
def eqb (a b : Material) : Bool :=
  a.color.approxEq b.color && approxEqual a.ambient b.ambient &&
    approxEqual a.diffuse b.diffuse && approxEqual a.specular b.specular &&
    approxEqual a.shininess b.shininess

end Material

/-! ## The object tree (`shape.rs`, `shape/csg.rs`) -/

/-- The non-recursive cases of `shape.rs` `Shape` (every `SimpleObject`
snapshot stored in an `Intersection` carries one of these; the live code
never builds a snapshot of a `Csg`, which is matched away first). -/
inductive Prim where
  | sphere : Prim
  | plane : Prim
  | cube : Prim
  | cylinder (c : Cylinder) : Prim
  | cone (c : Cone) : Prim
  | triangle (t : Triangle) : Prim
deriving DecidableEq

/-- `PartialEq for Shape` restricted to the primitive cases. -/
def Prim.eqb : Prim → Prim → Bool
  | .sphere, .sphere => true
  | .plane, .plane => true
  | .cube, .cube => true
  | .cylinder a, .cylinder b => Cylinder.eqb a b
  | .cone a, .cone b => Cone.eqb a b
  | .triangle a, .triangle b => Triangle.eqb a b
  | _, _ => false

inductive CsgOp where
  | union : CsgOp
  | intersection : CsgOp
  | difference : CsgOp
deriving DecidableEq

/-- `CsgOp::intersection_allowed`. -/
def CsgOp.intersectionAllowed (op : CsgOp) (leftHit inl inr : Bool) : Bool :=
  match op with
  | .union => (leftHit && !inr) || (!leftHit && !inl)
  | .intersection => (leftHit && inr) || (!leftHit && inl)
  | .difference => (leftHit && !inr) || (!leftHit && inl)

mutual
inductive Shape where
  | prim (p : Prim) : Shape
  | csg (op : CsgOp) (left right : Object) : Shape

inductive ShapeOrGroup where
  | shape (material : Material) (shape : Shape) : ShapeOrGroup
  | group (children : List Object) : ShapeOrGroup

inductive Object where
  | mk (transform : Matrix4) (shape : ShapeOrGroup) : Object
end

def Object.transform : Object → Matrix4
  | .mk t _ => t

def Object.shapeOf : Object → ShapeOrGroup
  | .mk _ s => s

/-- `shape.rs` `SimpleObject`: the resolved-leaf snapshot carried by a hit
record (material, cumulative transform, primitive). -/
structure SimpleObject where
  material : Material
  transform : Matrix4
  shape : Prim
deriving DecidableEq

/-- `PartialEq for SimpleObject` (derived): material, transform, shape. -/
def SimpleObject.eqb (a b : SimpleObject) : Bool :=
  Material.eqb a.material b.material && Matrix4.approxEq a.transform b.transform &&
    Prim.eqb a.shape b.shape

/-- `intersection.rs` `Intersection`: parameter `t`, optional barycentric
`(u, v)`, and the resolved-leaf snapshot. -/
structure Intersection where
  t : ℚ
  uv : Option (ℚ × ℚ)
  object : SimpleObject
deriving DecidableEq

/-- `intersection.rs` `TorUVT`. -/
inductive TorUVT where
  | justT (t : ℚ) : TorUVT
  | uvt (u : UVT) : TorUVT
deriving DecidableEq

/-- `Intersection::new`. -/
def Intersection.new (tor : TorUVT) (obj : SimpleObject) : Intersection :=
  match tor with
  | .justT t => ⟨t, none, obj⟩
  | .uvt u => ⟨u.t, some (u.u, u.v), obj⟩

/-- `Intersection::uvt`. -/
def Intersection.uvtOf (i : Intersection) : Option UVT :=
  i.uv.map (fun p => ⟨i.t, p.1, p.2⟩)

/-- `PartialEq for Intersection`: `approx_equal(t)` and object equality. -/
def Intersection.eqb (a b : Intersection) : Bool :=
  approxEqual a.t b.t && SimpleObject.eqb a.object b.object

/-- `Object::includes`: structural containment search used by the CSG
filter — groups and CSG operands recurse, a primitive leaf compares its own
snapshot against the queried one. -/
def Object.includes (o : Object) (s : SimpleObject) : Bool :=
  match o with
  | .mk _ (.group g) => g.attach.any (fun c => c.1.includes s)
  | .mk _ (.shape _ (.csg _ l r)) => l.includes s || r.includes s
  | .mk t (.shape m (.prim p)) => SimpleObject.eqb ⟨m, t, p⟩ s
termination_by sizeOf o
decreasing_by
  · have := List.sizeOf_lt_of_mem c.2
    simp only [Object.mk.sizeOf_spec, ShapeOrGroup.group.sizeOf_spec]
    omega
  · simp only [Object.mk.sizeOf_spec, ShapeOrGroup.shape.sizeOf_spec,
      Shape.csg.sizeOf_spec]
    omega
  · simp only [Object.mk.sizeOf_spec, ShapeOrGroup.shape.sizeOf_spec,
      Shape.csg.sizeOf_spec]
    omega

/-! ## Bounding boxes (`shape.rs` `BoundingBox`) -/

structure BoundingBox where
  min : TupleF
  max : TupleF
deriving DecidableEq

namespace BoundingBox

/-- `BoundingBox::points`: the 8 corners, in source order. -/
def points (bb : BoundingBox) : List TupleF :=
  [TupleF.pointF bb.min.x bb.min.y bb.min.z,
   TupleF.pointF bb.min.x bb.max.y bb.min.z,
   TupleF.pointF bb.min.x bb.min.y bb.max.z,
   TupleF.pointF bb.min.x bb.max.y bb.max.z,
   TupleF.pointF bb.max.x bb.min.y bb.min.z,
   TupleF.pointF bb.max.x bb.max.y bb.min.z,
   TupleF.pointF bb.max.x bb.min.y bb.max.z,
   TupleF.pointF bb.max.x bb.max.y bb.max.z]

/-- `BoundingBox::from_points`: componentwise IEEE min/max folds started
from `(+∞,+∞,+∞)` / `(-∞,-∞,-∞)`. -/
def fromPoints (ps : List TupleF) : BoundingBox :=
  { min := ps.foldl TupleF.minIeee (TupleF.pointF .pinf .pinf .pinf),
    max := ps.foldl TupleF.maxIeee (TupleF.pointF .ninf .ninf .ninf) }

/-- `BoundingBox::union`: componentwise `f64::min`/`f64::max`. -/
def union (a b : BoundingBox) : BoundingBox :=
  { min := TupleF.pointF (F.minIeee a.min.x b.min.x) (F.minIeee a.min.y b.min.y)
      (F.minIeee a.min.z b.min.z),
    max := TupleF.pointF (F.maxIeee a.max.x b.max.x) (F.maxIeee a.max.y b.max.y)
      (F.maxIeee a.max.z b.max.z) }

/-- `BoundingBox::intersect`: reuse the cube slab test against the box's own
min/max; true iff the returned list is nonempty. -/
def intersectB (bb : BoundingBox) (worldRay : Ray) : Except Unit Bool :=
  (cubeLocalIntersect bb.min bb.max worldRay).map (fun l => decide (0 < l.length))

end BoundingBox

/-- `Shape::bounding_box`, primitive cases. -/
def Prim.boundingBox : Prim → BoundingBox
  | .sphere =>
      { min := TupleF.pointF (.fin (-(1 + EPSILON))) (.fin (-(1 + EPSILON)))
          (.fin (-(1 + EPSILON))),
        max := TupleF.pointF (.fin (1 + EPSILON)) (.fin (1 + EPSILON))
          (.fin (1 + EPSILON)) }
  | .cube =>
      { min := TupleF.pointF (.fin (-1)) (.fin (-1)) (.fin (-1)),
        max := TupleF.pointF (.fin 1) (.fin 1) (.fin 1) }
  | .plane =>
      { min := TupleF.pointF .ninf (.fin 0) .ninf,
        max := TupleF.pointF .pinf (.fin 0) .pinf }
  | .cylinder c =>
      { min := TupleF.pointF (.fin (-1)) (.fin c.minimum) (.fin (-1)),
        max := TupleF.pointF (.fin 1) (.fin c.maximum) (.fin 1) }
  | .cone c =>
      let maxX := max |c.minimum| |c.maximum|
      { min := TupleF.pointF (.fin (-maxX)) (.fin c.minimum) (.fin (-maxX)),
        max := TupleF.pointF (.fin maxX) (.fin c.maximum) (.fin maxX) }
  | .triangle t =>
      BoundingBox.fromPoints [TupleF.ofTuple t.p1, TupleF.ofTuple t.p2, TupleF.ofTuple t.p3]

/-- Fold of `Iterator::reduce(BoundingBox::union)`: `none` on an empty
sequence. -/
def reduceUnion : List BoundingBox → Option BoundingBox
  | [] => none
  | b :: bs => some (bs.foldl BoundingBox.union b)

/-- `Object::bounding_box`: inner box of the shape (children reduced by
union — `unwrap` fails on an empty group), then transform the 8 corners and
re-derive an axis-aligned box.  `Except.error` models the panic. -/
def Object.boundingBox (o : Object) : Except Unit BoundingBox :=
  match o with
  | .mk tr sh => do
      let inner ←
        match sh with
        | .shape _ (.prim p) => pure (Prim.boundingBox p)
        | .shape _ (.csg _ l r) => do
            let lb ← l.boundingBox
            let rb ← r.boundingBox
            pure (lb.union rb)
        | .group g => do
            let bbs ← g.attach.mapM (fun c => c.1.boundingBox)
            match reduceUnion bbs with
            | some bb => pure bb
            | none => Except.error ()
      pure (BoundingBox.fromPoints (inner.points.map (fun p => tr.mulTF p)))
termination_by sizeOf o
decreasing_by
  · simp only [Object.mk.sizeOf_spec, ShapeOrGroup.shape.sizeOf_spec,
      Shape.csg.sizeOf_spec]
    omega
  · simp only [Object.mk.sizeOf_spec, ShapeOrGroup.shape.sizeOf_spec,
      Shape.csg.sizeOf_spec]
    omega
  · have := List.sizeOf_lt_of_mem c.2
    simp only [Object.mk.sizeOf_spec, ShapeOrGroup.group.sizeOf_spec]
    omega

def liftOpt : Option α → Except Unit α
  | some a => .ok a
  | none => .error ()

/-- Loop body of `Csg::filter_intersections`, with the two state booleans
threaded explicitly. -/
def filterIntersectionsGo (op : CsgOp) (left : Object) :
    Bool → Bool → List Intersection → List Intersection
  | _, _, [] => []
  | inl, inr, i :: rest =>
      let leftHit := left.includes i.object
      let keep := op.intersectionAllowed leftHit inl inr
      let inl' := if leftHit then !inl else inl
      let inr' := if leftHit then inr else !inr
      if keep then i :: filterIntersectionsGo op left inl' inr' rest
      else filterIntersectionsGo op left inl' inr' rest

/-- `Csg::filter_intersections`: walk the merged list with `inl`/`inr`
starting false, keeping an intersection iff the operator allows it. -/
def filterIntersections (op : CsgOp) (left : Object) (xs : List Intersection) :
    List Intersection :=
  filterIntersectionsGo op left false false xs

/-- Per-primitive dispatch of `Shape::local_intersect`.  Only the cube case
can fail (NaN comparison panic inside the slab test); its finite ts are
projected back to `ℚ` (a non-finite t can only arise when every direction
component is below `EPSILON`). -/
def Prim.localIntersect (p : Prim) (r : Ray) : Except Unit (List TorUVT) :=
  match p with
  | .sphere => pure ((Sphere.localIntersect r).map TorUVT.justT)
  | .plane => pure ((Plane.localIntersect r).map TorUVT.justT)
  | .cube => (Cube.localIntersect r).map (fun l => l.map (fun f => TorUVT.justT f.toRatZero))
  | .cylinder c => pure ((c.localIntersect r).map TorUVT.justT)
  | .cone c => pure ((c.localIntersect r).map TorUVT.justT)
  | .triangle t => pure ((t.localIntersect r).map TorUVT.uvt)

/-- Re-stamping of a child's cumulative transform by the parent's transform
(`i.object.transform = self.transform * i.object.transform`). -/
def restamp (tr : Matrix4) (i : Intersection) : Intersection :=
  { i with object := { i.object with transform := tr.mul i.object.transform } }

mutual

/-- `Object::intersect`: world-space bounding-box test first; on a miss
return empty without descending, otherwise transform the ray by the inverse
transform (`unwrap` — fails on a singular matrix) and dispatch. -/
def Object.intersect (o : Object) (r : Ray) : Except Unit (List Intersection) := do
  let bb ← o.boundingBox
  let hitB ← bb.intersectB r
  if hitB then do
    let inv ← liftOpt o.transform.inverse
    o.localIntersect (r.transformM inv)
  else
    pure []
termination_by (sizeOf o, 1)
decreasing_by
  exact Prod.Lex.right (sizeOf o) (by omega)

/-- `Object::local_intersect`: CSG merges and filters both operands' results;
a group flat-maps `Object::intersect` over its children; a primitive leaf
wraps each local `t` with its snapshot.  CSG and group results are re-stamped
with this node's transform. -/
def Object.localIntersect (o : Object) (localRay : Ray) :
    Except Unit (List Intersection) :=
  match o with
  | .mk tr (.shape _ (.csg op l rr)) => do
      let li ← l.intersect localRay
      let ri ← rr.intersect localRay
      let xs := (li ++ ri).mergeSort (fun a b => a.t ≤ b.t)
      pure ((filterIntersections op l xs).map (restamp tr))
  | .mk tr (.group g) => do
      let xss ← g.attach.mapM (fun c => c.1.intersect localRay)
      pure (xss.flatten.map (restamp tr))
  | .mk tr (.shape m (.prim p)) => do
      let ts ← Prim.localIntersect p localRay
      pure (ts.map (fun tor => Intersection.new tor ⟨m, tr, p⟩))
termination_by (sizeOf o, 0)
decreasing_by
  · apply Prod.Lex.left
    simp only [Object.mk.sizeOf_spec, ShapeOrGroup.shape.sizeOf_spec,
      Shape.csg.sizeOf_spec]
    omega
  · apply Prod.Lex.left
    simp only [Object.mk.sizeOf_spec, ShapeOrGroup.shape.sizeOf_spec,
      Shape.csg.sizeOf_spec]
    omega
  · apply Prod.Lex.left
    have := List.sizeOf_lt_of_mem c.2
    simp only [Object.mk.sizeOf_spec, ShapeOrGroup.group.sizeOf_spec]
    omega

end

/-! ## Hit selection and shading context (`intersection.rs`) -/

/-- `Intersection::hit`: filter to `t >= 0`, then `min_by` on `t`
(Rust's `min_by` keeps the *first* minimum; the fold below replaces the
accumulator only on a strictly smaller `t`). -/
def Intersection.hit (xs : List Intersection) : Option Intersection :=
  match xs.filter (fun i => decide (0 ≤ i.t)) with
  | [] => none
  | y :: ys => some (ys.foldl (fun acc x => if x.t < acc.t then x else acc) y)

/-- One `containers` update step in `compute_refractive_indices`: remove the
first stack entry equal to the leaf if present (exiting), else push it
(entering; `Vec::push` appends at the end, so the stack top is the last
element). -/
def containersUpdate (cs : List SimpleObject) (obj : SimpleObject) : List SimpleObject :=
  match cs.findIdx? (fun o => SimpleObject.eqb o obj) with
  | some idx => cs.eraseIdx idx
  | none => cs ++ [obj]

/-- `containers.last()` refractive index, `1.0` for an empty stack. -/
def lastRefr (cs : List SimpleObject) : ℚ :=
  match cs.getLast? with
  | some o => o.material.refractiveIndex
  | none => 1

/-- Loop of `compute_refractive_indices`: `n1`/`n2` are only assigned at the
first element (approximately) equal to the queried hit, `n1` from the stack
top before that element's update and `n2` after, then the loop breaks; if no
element matches, the initial `(1.0, 1.0)` survives. -/
def refrGo (self : Intersection) (cs : List SimpleObject) :
    List Intersection → ℚ × ℚ
  | [] => (1, 1)
  | i :: rest =>
      if Intersection.eqb i self then
        (lastRefr cs, lastRefr (containersUpdate cs i.object))
      else
        refrGo self (containersUpdate cs i.object) rest

/-- `Intersection::compute_refractive_indices`. -/
def Intersection.computeRefractiveIndices (self : Intersection)
    (all : List Intersection) : ℚ × ℚ :=
  refrGo self [] all

/-- `Shape::local_normal_at` dispatch (triangles `unwrap` the barycentric
coordinates of the intersection that produced the hit). -/
def Prim.localNormalAt (p : Prim) (i : Intersection) (localPoint : Tuple) :
    Except Unit Tuple :=
  match p with
  | .sphere => pure (Sphere.localNormalAt localPoint)
  | .plane => pure (Plane.localNormalAt localPoint)
  | .cube => pure (Cube.localNormalAt localPoint)
  | .cylinder c => pure (c.localNormalAt localPoint)
  | .cone c => pure (c.localNormalAt localPoint)
  | .triangle t => do
      let u ← liftOpt i.uvtOf
      pure (t.localNormalAt u)

/-- `SimpleObject::normal_at`: inverse-transform the point, take the local
normal, push it through the transposed inverse, zero the `w` component and
normalize. -/
def SimpleObject.normalAt (s : SimpleObject) (i : Intersection)
    (worldPoint : Tuple) : Except Unit Tuple := do
  let inv ← liftOpt s.transform.inverse
  let localPoint := inv.mulT worldPoint
  let localNormal ← Prim.localNormalAt s.shape i localPoint
  let wn := inv.transpose.mulT localNormal
  pure ({ wn with w := 0 }).normalize

/-- `intersection.rs` `ComputedIntersection` (the `cfg(test)`-only fields are
omitted). -/
structure ComputedIntersection where
  object : SimpleObject
  eyeVector : Tuple
  normalVector : Tuple
  reflectVector : Tuple
  overPoint : Tuple
  underPoint : Tuple
  n1 : ℚ
  n2 : ℚ
deriving DecidableEq

/-- `Intersection::prepare_computations`. -/
def Intersection.prepareComputations (self : Intersection) (ray : Ray)
    (all : List Intersection) : Except Unit ComputedIntersection := do
  let object := self.object
  let point := ray.position self.t
  let eyeVector := ray.direction.neg
  let tentativeNormal ← object.normalAt self point
  let normalVector :=
    if tentativeNormal.dot eyeVector < 0 then tentativeNormal.neg else tentativeNormal
  let reflectVector := ray.direction.reflect normalVector
  let overPoint := point.add (normalVector.smul EPSILON)
  let underPoint := point.sub (normalVector.smul EPSILON)
  let nn := self.computeRefractiveIndices all
  pure ⟨object, eyeVector, normalVector, reflectVector, overPoint, underPoint,
    nn.1, nn.2⟩

/-- `ComputedIntersection::schlick` (the source mutates `cos` in the
`n1 > n2` branch before the shared tail; here the tail is duplicated per
branch with the corresponding cosine). -/
def ComputedIntersection.schlick (c : ComputedIntersection) : ℚ :=
  let cos := c.eyeVector.dot c.normalVector
  if c.n1 > c.n2 then
    let n := c.n1 / c.n2
    let sin2T := n ^ 2 * (1 - cos ^ 2)
    if sin2T > 1 then 1
    else
      let cosT := Rat.sqrt (1 - sin2T)
      let r0 := ((c.n1 - c.n2) / (c.n1 + c.n2)) ^ 2
      r0 + (1 - r0) * (1 - cosT) ^ 5
  else
    let r0 := ((c.n1 - c.n2) / (c.n1 + c.n2)) ^ 2
    r0 + (1 - r0) * (1 - cos) ^ 5

/-! ## Lighting and world (`material.rs`, `pattern.rs`, `world.rs`) -/

/-- `Pattern::pattern_at_object`: world point through the inverse object
transform, then the inverse pattern transform. -/
def Pattern.patternAtObject (p : Pattern) (object : SimpleObject)
    (worldPoint : Tuple) : Except Unit Color := do
  let invObj ← liftOpt object.transform.inverse
  let objectPoint := invObj.mulT worldPoint
  let invPat ← liftOpt p.transform.inverse
  pure (p.patternAt (invPat.mulT objectPoint))

/-- `material.rs` `lighting`: Phong shading with pattern lookup; in shadow
only the ambient term survives. -/
def lighting (material : Material) (object : SimpleObject) (light : Light)
    (point eyeVector normalVector : Tuple) (inShadow : Bool) :
    Except Unit Color := do
  let color ←
    match material.pattern with
    | some p => p.patternAtObject object point
    | none => pure material.color
  let effectiveColor := color.mul light.intensity
  let lightVector := (light.position.sub point).normalize
  let ambient := effectiveColor.smul material.ambient
  let lightDotNormal := lightVector.dot normalVector
  let ds : Color × Color :=
    if lightDotNormal < 0 then (Color.black, Color.black)
    else
      let diffuse := (effectiveColor.smul material.diffuse).smul lightDotNormal
      let reflectVector := lightVector.neg.reflect normalVector
      let reflectDotEye := reflectVector.dot eyeVector
      if reflectDotEye ≤ 0 then (diffuse, Color.black)
      else
        let factor := powfQ reflectDotEye material.shininess
        (diffuse, (light.intensity.smul material.specular).smul factor)
  pure (if inShadow then ambient else (ambient.add ds.1).add ds.2)

structure World where
  objects : List Object
  lights : List Light

/-- `World::intersect`: concatenate per-object results, sort ascending by `t`
(stable merge sort, as Rust's `sort_by`). -/
def World.intersect (w : World) (r : Ray) : Except Unit (List Intersection) := do
  let xss ← w.objects.mapM (fun o => o.intersect r)
  pure (xss.flatten.mergeSort (fun a b => a.t ≤ b.t))

/-- `World::is_shadowed`: cast a ray from the point toward the light;
shadowed iff the nearest non-negative hit is strictly closer than the
light. -/
def World.isShadowed (w : World) (point : Tuple) (light : Light) :
    Except Unit Bool := do
  let vector := light.position.sub point
  let distance := vector.magnitude
  let ray : Ray := ⟨point, vector.normalize⟩
  let xs ← w.intersect ray
  pure
    (match Intersection.hit xs with
     | some h => decide (h.t < distance)
     | none => false)

/-- The surface-color sum in `World::shade_hit`: per light, shadow-test the
over-point and apply `lighting`, then fold with color addition from black. -/
def World.surfaceColor (w : World) (comps : ComputedIntersection) :
    Except Unit Color := do
  let cs ← w.lights.mapM (fun light => do
    let sh ← w.isShadowed comps.overPoint light
    lighting comps.object.material comps.object light comps.overPoint
      comps.eyeVector comps.normalVector sh)
  pure (cs.foldl Color.add Color.black)

/-- Errors of the fuel-instrumented shading recursion: a Rust panic, or
exhaustion of the *proof-level* fuel (never the source's depth budget, which
is the explicit `depth` parameter). -/
inductive RtError where
  | panic : RtError
  | outOfFuel : RtError
deriving DecidableEq

def liftPanic : Except Unit α → Except RtError α
  | .ok a => .ok a
  | .error () => .error .panic

mutual

/-- `World::color_at_with_depth`, instrumented with fuel: each nested
`color_at` call consumes one unit.  The source recursion itself is governed
solely by `depth`. -/
def World.colorAtF (fuel : Nat) (w : World) (r : Ray) (depth : ℤ) :
    Except RtError Color :=
  match fuel with
  | 0 => .error .outOfFuel
  | fuel' + 1 => do
      let xs ← liftPanic (w.intersect r)
      match Intersection.hit xs with
      | some i => do
          let comps ← liftPanic (i.prepareComputations r xs)
          World.shadeHitF fuel' w comps depth
      | none => pure Color.black
termination_by (fuel, 0)
decreasing_by
  exact Prod.Lex.left _ _ (by omega)

/-- `World::shade_hit`: surface + reflected + refracted, Schlick-blended when
the material is both reflective and transparent. -/
def World.shadeHitF (fuel : Nat) (w : World) (comps : ComputedIntersection)
    (depth : ℤ) : Except RtError Color := do
  let surface ← liftPanic (w.surfaceColor comps)
  let reflected ← World.reflectedColorF fuel w comps depth
  let refracted ← World.refractedColorF fuel w comps depth
  let material := comps.object.material
  pure
    (if 0 < material.reflective ∧ 0 < material.transparency then
      let reflectance := comps.schlick
      (surface.add (reflected.smul reflectance)).add
        (refracted.smul (1 - reflectance))
    else (surface.add reflected).add refracted)
termination_by (fuel, 2)
decreasing_by
  · exact Prod.Lex.right _ (by omega)
  · exact Prod.Lex.right _ (by omega)

/-- `World::reflected_color`: black when no depth remains (`depth <= 0`) or
the material is not reflective; otherwise recurse from the over-point along
the reflection vector with `depth - 1`. -/
def World.reflectedColorF (fuel : Nat) (w : World)
    (comps : ComputedIntersection) (depth : ℤ) : Except RtError Color :=
  if depth ≤ 0 then pure Color.black
  else
    let reflective := comps.object.material.reflective
    if 0 < reflective then do
      let c ← World.colorAtF fuel w ⟨comps.overPoint, comps.reflectVector⟩ (depth - 1)
      pure (c.smul reflective)
    else pure Color.black
termination_by (fuel, 1)
decreasing_by
  exact Prod.Lex.right _ (by omega)

/-- `World::refracted_color`: black when `depth == 0`, the material is
opaque, or under total internal reflection; otherwise recurse from the
under-point along the refraction direction with `depth - 1`. -/
def World.refractedColorF (fuel : Nat) (w : World)
    (comps : ComputedIntersection) (depth : ℤ) : Except RtError Color :=
  let objectIsOpaque := comps.object.material.transparency = 0
  let nRat := comps.n1 / comps.n2
  let cosI := comps.eyeVector.dot comps.normalVector
  let sin2T := nRat ^ 2 * (1 - cosI ^ 2)
  let totalInternalReflection := sin2T > 1
  if depth = 0 ∨ objectIsOpaque ∨ totalInternalReflection then pure Color.black
  else do
    let cosT := Rat.sqrt (1 - sin2T)
    let direction :=
      (comps.normalVector.smul (nRat * cosI - cosT)).sub (comps.eyeVector.smul nRat)
    let c ← World.colorAtF fuel w ⟨comps.underPoint, direction⟩ (depth - 1)
    pure (c.smul comps.object.material.transparency)
termination_by (fuel, 1)
decreasing_by
  exact Prod.Lex.right _ (by omega)

end

/-- `World::color_at`: the entry point with the default depth budget 8 (fuel
9 suffices by `colorAtF_no_fuel_error` below). -/
def World.colorAt (w : World) (r : Ray) : Except RtError Color :=
  World.colorAtF 9 w r 8

/-! ## Generic infrastructure for the theorems -/

def exceptDecEq [DecidableEq ε] [DecidableEq α] : DecidableEq (Except ε α) := fun a b =>
  match a, b with
  | .ok x, .ok y =>
      if h : x = y then .isTrue (by rw [h])
      else .isFalse (fun hc => h (by injection hc))
  | .error x, .error y =>
      if h : x = y then .isTrue (by rw [h])
      else .isFalse (fun hc => h (by injection hc))
  | .ok _, .error _ => .isFalse (fun hc => Except.noConfusion hc)
  | .error _, .ok _ => .isFalse (fun hc => Except.noConfusion hc)

instance [DecidableEq ε] [DecidableEq α] : DecidableEq (Except ε α) := exceptDecEq

/-! ## Specification-side definitions used by the theorems -/

/-- The `min_by` fold underlying `Intersection.hit`. -/
def minFold (y : Intersection) (ys : List Intersection) : Intersection :=
  ys.foldl (fun acc x => if x.t < acc.t then x else acc) y

/-- The claim's state walk: scan of the flip rule over the left-hit flags,
pairing each intersection with the state *before* it. -/
def csgStates (left : Object) (xs : List Intersection) : List (Bool × Bool) :=
  (xs.map (fun i => left.includes i.object)).scanl
    (fun s lh => if lh then (!s.1, s.2) else (s.1, !s.2)) (false, false)

def glassMat (ri : ℚ) : Material :=
  { Material.new with transparency := 1, refractiveIndex := ri }

def sphRad2 : Object := .mk (Matrix4.scaling 2 2 2) (.shape (glassMat (3/2)) (.prim .sphere))
def sphInner1 : Object := .mk Matrix4.identity (.shape (glassMat 2) (.prim .sphere))
def sphInner2 : Object := .mk Matrix4.identity (.shape (glassMat (5/2)) (.prim .sphere))
def wConcentric : World := ⟨[sphRad2, sphInner1, sphInner2], []⟩

def sphOffB : Object := .mk (Matrix4.translation 0 0 (-1/4)) (.shape (glassMat 2) (.prim .sphere))
def sphOffC : Object := .mk (Matrix4.translation 0 0 (1/4)) (.shape (glassMat (5/2)) (.prim .sphere))
def wOffset : World := ⟨[sphRad2, sphOffB, sphOffC], []⟩

def rayRefr : Ray := ⟨Tuple.point 0 0 (-4), Tuple.vector 0 0 1⟩

def glassUnit : SimpleObject := ⟨glassMat (3/2), Matrix4.identity, .sphere⟩
def i4glass : Intersection := ⟨4, none, glassUnit⟩
def xsGlass : List Intersection := [i4glass, ⟨6, none, glassUnit⟩]
def rayFromOutside : Ray := ⟨Tuple.point 0 0 (-5), Tuple.vector 0 0 1⟩

def compsTIR : ComputedIntersection :=
  ⟨glassUnit, Tuple.vector 0 0 (1/2), Tuple.vector 0 0 1, Tuple.vector 0 0 0,
   Tuple.point 0 0 0, Tuple.point 0 0 0, 3/2, 1⟩

def compsExit : ComputedIntersection :=
  ⟨glassUnit, Tuple.vector 0 0 1, Tuple.vector 0 0 1, Tuple.vector 0 0 0,
   Tuple.point 0 0 0, Tuple.point 0 0 0, 3/2, 1⟩

def compsEnter : ComputedIntersection :=
  ⟨glassUnit, Tuple.vector 0 0 1, Tuple.vector 0 0 1, Tuple.vector 0 0 0,
   Tuple.point 0 0 0, Tuple.point 0 0 0, 1, 3/2⟩

def emptyWorld : World := ⟨[], []⟩

/-- Specification-side predicate: some group node reachable in the tree has
no children. -/
def hasEmptyGroup (o : Object) : Bool :=
  match o with
  | .mk _ (.group g) => g.isEmpty || g.attach.any (fun c => hasEmptyGroup c.1)
  | .mk _ (.shape _ (.csg _ l r)) => hasEmptyGroup l || hasEmptyGroup r
  | .mk _ (.shape _ (.prim _)) => false
termination_by sizeOf o
decreasing_by
  · have := List.sizeOf_lt_of_mem c.2
    simp only [Object.mk.sizeOf_spec, ShapeOrGroup.group.sizeOf_spec]
    omega
  · simp only [Object.mk.sizeOf_spec, ShapeOrGroup.shape.sizeOf_spec,
      Shape.csg.sizeOf_spec]
    omega
  · simp only [Object.mk.sizeOf_spec, ShapeOrGroup.shape.sizeOf_spec,
      Shape.csg.sizeOf_spec]
    omega


/-- Specification-side transparency remap (C9: shadows ignore material
transparency): replace the material transparency, keep everything else. -/
def Material.withTransp (m : Material) (q : ℚ) : Material := { m with transparency := q }

def SimpleObject.withTransp (s : SimpleObject) (q : ℚ) : SimpleObject :=
  { s with material := s.material.withTransp q }

def Intersection.withTransp (i : Intersection) (q : ℚ) : Intersection :=
  { i with object := i.object.withTransp q }

/-- Transparency remap over a whole object tree. -/
def Object.withTransp (q : ℚ) (o : Object) : Object :=
  match o with
  | .mk tr (.group g) =>
      .mk tr (.group (g.attach.map (fun c => Object.withTransp q c.1)))
  | .mk tr (.shape m (.csg op l r)) =>
      .mk tr (.shape (m.withTransp q)
        (.csg op (Object.withTransp q l) (Object.withTransp q r)))
  | .mk tr (.shape m (.prim p)) => .mk tr (.shape (m.withTransp q) (.prim p))
termination_by sizeOf o
decreasing_by
  · have := List.sizeOf_lt_of_mem c.2
    simp only [Object.mk.sizeOf_spec, ShapeOrGroup.group.sizeOf_spec]
    omega
  · simp only [Object.mk.sizeOf_spec, ShapeOrGroup.shape.sizeOf_spec,
      Shape.csg.sizeOf_spec]
    omega
  · simp only [Object.mk.sizeOf_spec, ShapeOrGroup.shape.sizeOf_spec,
      Shape.csg.sizeOf_spec]
    omega

def World.withTransp (q : ℚ) (w : World) : World :=
  { w with objects := w.objects.map (Object.withTransp q) }

/-- Shadow example: a point light behind the origin. -/
def lightShadow : Light := ⟨Tuple.point 0 0 (-10), Color.white⟩

/-- Shadow example: a single default unit sphere at the origin. -/
def wShadow : World :=
  ⟨[Object.mk Matrix4.identity (.shape Material.new (.prim .sphere))], [lightShadow]⟩

/-- The intersections of the shadow ray from `(0,0,10)` toward the light
with the sphere of `wShadow`. -/
def xsShadow : List Intersection :=
  [⟨9, none, ⟨Material.new, Matrix4.identity, .sphere⟩⟩,
   ⟨11, none, ⟨Material.new, Matrix4.identity, .sphere⟩⟩]


/-- Claim C4 failing input: a unit sphere stretched to height 100. -/
def sphTall : Object :=
  Object.mk (Matrix4.scaling 1 100 1) (.shape Material.new (.prim .sphere))

/-- Claim C4 failing input: a ray from `(2,0,0)` whose direction components are
below `EPSILON` in `x` and `z` but not in `y`. -/
def rayGraze : Ray :=
  ⟨Tuple.point 2 0 0, Tuple.vector (-(1/1000000000)) (1/100000000) 0⟩

/-- The variant of `Object::intersect` described by the claim: skip the
bounding-box test and run the local intersection machinery directly
(inverse-transform the ray, then dispatch). -/
def Object.intersectNoPrune (o : Object) (r : Ray) : Except Unit (List Intersection) := do
  let inv ← liftOpt o.transform.inverse
  o.localIntersect (r.transformM inv)

/-! # Theorems -/

/-! ## Claim C5: nearest-hit selection -/

theorem minFold_of_min (ys : List Intersection) (acc : Intersection)
    (h : ∀ i ∈ ys, acc.t ≤ i.t) : minFold acc ys = acc := by
  induction ys with
  | nil => rfl
  | cons x ys ih =>
      have hx : acc.t ≤ x.t := h x (by simp)
      simp only [minFold, List.foldl_cons]
      rw [if_neg (by exact not_lt.mpr hx)]
      exact ih (fun i hi => h i (by simp [hi]))

theorem minFold_le_all (ys : List Intersection) :
    ∀ y, (minFold y ys).t ≤ y.t ∧ ∀ i ∈ ys, (minFold y ys).t ≤ i.t := by
  induction ys with
  | nil => intro y; exact ⟨le_refl _, by simp⟩
  | cons x ys ih =>
      intro y
      by_cases hc : x.t < y.t
      · have hstep : minFold y (x :: ys) = minFold x ys := by
          simp only [minFold, List.foldl_cons]; rw [if_pos hc]
        obtain ⟨h1, h2⟩ := ih x
        refine ⟨?_, ?_⟩
        · rw [hstep]; exact le_of_lt (lt_of_le_of_lt h1 hc)
        · intro i hi
          rcases List.mem_cons.mp hi with rfl | hi
          · rw [hstep]; exact h1
          · rw [hstep]; exact h2 i hi
      · have hstep : minFold y (x :: ys) = minFold y ys := by
          simp only [minFold, List.foldl_cons]; rw [if_neg hc]
        obtain ⟨h1, h2⟩ := ih y
        refine ⟨by rw [hstep]; exact h1, ?_⟩
        intro i hi
        rcases List.mem_cons.mp hi with rfl | hi
        · rw [hstep]; exact le_trans h1 (not_lt.mp hc)
        · rw [hstep]; exact h2 i hi

theorem minFold_mid (l₂ : List Intersection) (h : Intersection)
    (hl₂ : ∀ i ∈ l₂, h.t ≤ i.t) :
    ∀ l₁ y, h.t < y.t → (∀ i ∈ l₁, h.t < i.t) →
      minFold y (l₁ ++ h :: l₂) = h := by
  intro l₁
  induction l₁ with
  | nil =>
      intro y hy _
      simp only [List.nil_append, minFold, List.foldl_cons]
      rw [if_pos hy]
      exact minFold_of_min l₂ h hl₂
  | cons a l₁ ih =>
      intro y hy hl₁
      simp only [List.cons_append, minFold, List.foldl_cons]
      by_cases hca : a.t < y.t
      · rw [if_pos hca]
        exact ih a (hl₁ a (by simp)) (fun i hi => hl₁ i (by simp [hi]))
      · rw [if_neg hca]
        exact ih y hy (fun i hi => hl₁ i (by simp [hi]))

theorem minFold_spec (ys : List Intersection) :
    ∀ y, ∃ l₁ l₂, y :: ys = l₁ ++ (minFold y ys) :: l₂ ∧
      (∀ i ∈ l₁, (minFold y ys).t < i.t) ∧ (∀ i ∈ l₂, (minFold y ys).t ≤ i.t) := by
  induction ys with
  | nil =>
      intro y
      exact ⟨[], [], by simp [minFold], by simp, by simp⟩
  | cons x ys ih =>
      intro y
      by_cases hc : x.t < y.t
      · have hstep : minFold y (x :: ys) = minFold x ys := by
          simp only [minFold, List.foldl_cons]; rw [if_pos hc]
        obtain ⟨l₁, l₂, hdec, h₁, h₂⟩ := ih x
        refine ⟨y :: l₁, l₂, ?_, ?_, ?_⟩
        · rw [hstep]; simp [hdec]
        · intro i hi
          rcases List.mem_cons.mp hi with rfl | hi
          · rw [hstep]
            exact lt_of_le_of_lt (minFold_le_all ys x).1 hc
          · rw [hstep]; exact h₁ i hi
        · intro i hi; rw [hstep]; exact h₂ i hi
      · have hstep : minFold y (x :: ys) = minFold y ys := by
          simp only [minFold, List.foldl_cons]; rw [if_neg hc]
        obtain ⟨l₁, l₂, hdec, h₁, h₂⟩ := ih y
        match l₁, hdec with
        | [], hdec =>
            have hy : y = minFold y ys := by
              simpa using congrArg (fun l => l.head?) hdec
            refine ⟨[], x :: ys, by rw [hstep, ← hy]; simp, by simp, ?_⟩
            intro i hi
            simp only [List.mem_cons] at hi
            rcases hi with h | h
            · rw [hstep, ← hy, h]; exact not_lt.mp hc
            · rw [hstep]; exact (minFold_le_all ys y).2 i h
        | y' :: l₁', hdec =>
            have hy : y = y' := by
              simpa using congrArg (fun l => l.head?) hdec
            have hys : ys = l₁' ++ minFold y ys :: l₂ := by
              simpa using congrArg (fun l => l.tail) hdec
            have hyy : (minFold y ys).t < y.t := by
              have := h₁ y' (List.mem_cons_self y' l₁')
              rwa [← hy] at this
            have hxx : (minFold y ys).t < x.t :=
              lt_of_lt_of_le hyy (not_lt.mp hc)
            refine ⟨y :: x :: l₁', l₂, ?_, ?_, ?_⟩
            · rw [hstep]
              conv_lhs => rw [hys]
              simp
            · intro i hi
              simp only [List.mem_cons] at hi
              rcases hi with h | h | h
              · rw [hstep, h]; exact hyy
              · rw [hstep, h]; exact hxx
              · rw [hstep]; exact h₁ i (by simp [h])
            · intro i hi; rw [hstep]; exact h₂ i hi



theorem hit_eq_minFold (xs : List Intersection) :
    Intersection.hit xs =
      match xs.filter (fun i => decide (0 ≤ i.t)) with
      | [] => none
      | y :: ys => some (minFold y ys) := rfl

theorem hit_filter_nil (xs : List Intersection)
    (hf : xs.filter (fun i => decide (0 ≤ i.t)) = []) :
    Intersection.hit xs = none := by
  rw [hit_eq_minFold, hf]

theorem hit_filter_cons (xs : List Intersection) (y : Intersection)
    (ys : List Intersection)
    (hf : xs.filter (fun i => decide (0 ≤ i.t)) = y :: ys) :
    Intersection.hit xs = some (minFold y ys) := by
  rw [hit_eq_minFold, hf]

/-- Claim C5: `Intersection::hit` returns `none` exactly when every
intersection has negative `t`; otherwise it returns the first intersection
whose `t` is minimal among the non-negative ones (strictly smaller than every
earlier candidate, no larger than every later one). -/
theorem claimC5_hit_selection (xs : List Intersection) :
    (Intersection.hit xs = none ↔ ∀ i ∈ xs, i.t < 0) ∧
    (∀ h : Intersection, Intersection.hit xs = some h ↔
      ∃ l₁ l₂, xs = l₁ ++ h :: l₂ ∧ 0 ≤ h.t ∧
        (∀ i ∈ l₁, 0 ≤ i.t → h.t < i.t) ∧
        (∀ i ∈ l₂, 0 ≤ i.t → h.t ≤ i.t)) := by
  constructor
  · cases hf : xs.filter (fun i => decide (0 ≤ i.t)) with
    | nil =>
        rw [hit_filter_nil xs hf]
        simp only [true_iff]
        intro i hi
        by_contra hneg
        have : i ∈ xs.filter (fun i => decide (0 ≤ i.t)) :=
          List.mem_filter.mpr ⟨hi, by simpa using not_lt.mp hneg⟩
        rw [hf] at this
        simp at this
    | cons y ys =>
        rw [hit_filter_cons xs y ys hf]
        simp only [reduceCtorEq, false_iff, not_forall]
        have hy : y ∈ xs.filter (fun i => decide (0 ≤ i.t)) := by rw [hf]; simp
        obtain ⟨hyx, hyp⟩ := List.mem_filter.mp hy
        exact ⟨y, hyx, by simpa using not_lt.mpr (by simpa using hyp)⟩
  · intro h
    constructor
    · intro hh
      cases hf : xs.filter (fun i => decide (0 ≤ i.t)) with
      | nil => rw [hit_filter_nil xs hf] at hh; simp at hh
      | cons y ys =>
          rw [hit_filter_cons xs y ys hf] at hh
          simp only [Option.some.injEq] at hh
          obtain ⟨L₁, L₂, hdec, h₁, h₂⟩ := minFold_spec ys y
          rw [hh] at hdec h₁ h₂
          have hfd : xs.filter (fun i => decide (0 ≤ i.t)) = L₁ ++ h :: L₂ := by
            rw [hf, hdec]
          obtain ⟨m₁, m₂, hxs, hfm₁, hfm₂⟩ := List.filter_eq_append_iff.mp hfd
          obtain ⟨a₁, a₂, hm₂, ha₁, hph, hfa₂⟩ := List.filter_eq_cons_iff.mp hfm₂
          refine ⟨m₁ ++ a₁, a₂, ?_, by simpa using hph, ?_, ?_⟩
          · rw [hxs, hm₂]; simp
          · intro i hi hip
            rcases List.mem_append.mp hi with hi | hi
            · have : i ∈ m₁.filter (fun i => decide (0 ≤ i.t)) :=
                List.mem_filter.mpr ⟨hi, by simpa using hip⟩
              rw [hfm₁] at this
              exact h₁ i this
            · have := ha₁ i hi
              simp at this
              exact absurd hip (by simpa using this)
          · intro i hi hip
            have : i ∈ a₂.filter (fun i => decide (0 ≤ i.t)) :=
              List.mem_filter.mpr ⟨hi, by simpa using hip⟩
            rw [hfa₂] at this
            exact h₂ i this
    · rintro ⟨l₁, l₂, rfl, hpos, h₁, h₂⟩
      have hfsplit : (l₁ ++ h :: l₂).filter (fun i => decide (0 ≤ i.t)) =
          l₁.filter (fun i => decide (0 ≤ i.t)) ++ h :: l₂.filter (fun i => decide (0 ≤ i.t)) := by
        rw [List.filter_append, List.filter_cons]
        simp [hpos]
      have hl₁f : ∀ i ∈ l₁.filter (fun i => decide (0 ≤ i.t)), h.t < i.t := by
        intro i hi
        obtain ⟨hm, hp⟩ := List.mem_filter.mp hi
        exact h₁ i hm (by simpa using hp)
      have hl₂f : ∀ i ∈ l₂.filter (fun i => decide (0 ≤ i.t)), h.t ≤ i.t := by
        intro i hi
        obtain ⟨hm, hp⟩ := List.mem_filter.mp hi
        exact h₂ i hm (by simpa using hp)
      cases hA : l₁.filter (fun i => decide (0 ≤ i.t)) with
      | nil =>
          have hf2 : (l₁ ++ h :: l₂).filter (fun i => decide (0 ≤ i.t)) =
              h :: l₂.filter (fun i => decide (0 ≤ i.t)) := by
            rw [hfsplit, hA]; simp
          rw [hit_filter_cons _ _ _ hf2]
          exact congrArg some (minFold_of_min _ _ hl₂f)
      | cons a A' =>
          have hf2 : (l₁ ++ h :: l₂).filter (fun i => decide (0 ≤ i.t)) =
              a :: (A' ++ h :: l₂.filter (fun i => decide (0 ≤ i.t))) := by
            rw [hfsplit, hA]; simp
          rw [hit_filter_cons _ _ _ hf2]
          have hha : h.t < a.t := hl₁f a (by rw [hA]; simp)
          have hha' : ∀ i ∈ A', h.t < i.t := by
            intro i hi
            exact hl₁f i (by rw [hA]; simp [hi])
          exact congrArg some (minFold_mid _ _ hl₂f A' a hha hha')



theorem filterGo_spec (op : CsgOp) (left : Object) :
    ∀ (xs : List Intersection) (inl inr : Bool),
      filterIntersectionsGo op left inl inr xs =
        ((xs.zip ((xs.map (fun i => left.includes i.object)).scanl
            (fun s lh => if lh then (!s.1, s.2) else (s.1, !s.2)) (inl, inr))).filter
          (fun p => op.intersectionAllowed (left.includes p.1.object) p.2.1 p.2.2)).map
          Prod.fst := by
  intro xs
  induction xs with
  | nil => intro inl inr; rfl
  | cons i rest ih =>
      intro inl inr
      by_cases hlh : left.includes i.object
      · by_cases hk : op.intersectionAllowed (left.includes i.object) inl inr
        · rw [hlh] at hk
          simp [filterIntersectionsGo, hk, hlh, ih]
        · rw [hlh] at hk
          simp only [Bool.not_eq_true] at hk
          simp [filterIntersectionsGo, hk, hlh, ih]
      · have hlh' : left.includes i.object = false := by simpa using hlh
        by_cases hk : op.intersectionAllowed (left.includes i.object) inl inr
        · rw [hlh'] at hk
          simp [filterIntersectionsGo, hk, hlh', ih]
        · rw [hlh'] at hk
          simp only [Bool.not_eq_true] at hk
          simp [filterIntersectionsGo, hk, hlh', ih]

theorem filterGo_sublist (op : CsgOp) (left : Object) :
    ∀ (xs : List Intersection) (inl inr : Bool),
      (filterIntersectionsGo op left inl inr xs).Sublist xs := by
  intro xs
  induction xs with
  | nil => intro inl inr; simp [filterIntersectionsGo]
  | cons i rest ih =>
      intro inl inr
      simp only [filterIntersectionsGo]
      by_cases hk : op.intersectionAllowed (left.includes i.object) inl inr
      · simp only [hk, if_true]
        exact List.Sublist.cons₂ i (ih _ _)
      · simp only [hk, if_false]
        exact List.Sublist.cons i (ih _ _)

/-- Claim C1: `Csg::filter_intersections` walks the merged list with the
`inside-left` / `inside-right` state flags (both starting false, the flag of
the side that owns the hit flipping after each record), keeps exactly the
records allowed by `intersection_allowed`, returns a sublist of its input,
and the operator table is union `(lhit ∧ ¬inr) ∨ (¬lhit ∧ ¬inl)`,
intersection `(lhit ∧ inr) ∨ (¬lhit ∧ inl)`, difference
`(lhit ∧ ¬inr) ∨ (¬lhit ∧ inl)`. -/
theorem claimC1_csg_filter :
    (∀ (op : CsgOp) (left : Object) (xs : List Intersection),
      filterIntersections op left xs =
        ((xs.zip (csgStates left xs)).filter
          (fun p => op.intersectionAllowed (left.includes p.1.object) p.2.1 p.2.2)).map
          Prod.fst ∧
      (filterIntersections op left xs).Sublist xs) ∧
    (∀ lh inl inr : Bool,
      (CsgOp.union.intersectionAllowed lh inl inr = ((lh && !inr) || (!lh && !inl))) ∧
      (CsgOp.intersection.intersectionAllowed lh inl inr = ((lh && inr) || (!lh && inl))) ∧
      (CsgOp.difference.intersectionAllowed lh inl inr = ((lh && !inr) || (!lh && inl)))) := by
  constructor
  · intro op left xs
    exact ⟨filterGo_spec op left xs false false, filterGo_sublist op left xs false false⟩
  · intro lh inl inr
    exact ⟨rfl, rfl, rfl⟩


/-! ## Claim C2: refractive-index stack walk -/

theorem refrGo_decomp (self m : Intersection) (l₂ : List Intersection)
    (hm : Intersection.eqb m self = true) :
    ∀ (l₁ : List Intersection) (cs : List SimpleObject),
      (∀ i ∈ l₁, Intersection.eqb i self = false) →
      refrGo self cs (l₁ ++ m :: l₂) =
        (lastRefr (l₁.foldl (fun s i => containersUpdate s i.object) cs),
         lastRefr (containersUpdate
           (l₁.foldl (fun s i => containersUpdate s i.object) cs) m.object)) := by
  intro l₁
  induction l₁ with
  | nil =>
      intro cs _
      simp [refrGo, hm]
  | cons a l₁ ih =>
      intro cs hl
      have ha : Intersection.eqb a self = false := hl a (by simp)
      simp only [List.cons_append, refrGo, ha, Bool.false_eq_true, if_false, List.foldl_cons]
      exact ih (containersUpdate cs a.object) (fun i hi => hl i (by simp [hi]))

set_option maxRecDepth 100000 in
/-- Claim C2 (corrected): `compute_refractive_indices` walks the sorted list
maintaining the container stack keyed by snapshot equality — the part of the
claim that holds universally — and on the glass-sphere example world the
pipeline produces the claimed `(n1, n2)` pairs only for the *offset* geometry
(inner spheres translated `z ∓ 0.25`); the claim's concentric geometry is
refuted by `claimC2_counterexample`. -/
theorem claimC2_refractive_indices :
    (∀ (xs l₁ l₂ : List Intersection) (self m : Intersection),
        xs = l₁ ++ m :: l₂ →
        (∀ i ∈ l₁, Intersection.eqb i self = false) →
        Intersection.eqb m self = true →
        self.computeRefractiveIndices xs =
          (lastRefr (l₁.foldl (fun s i => containersUpdate s i.object) []),
           lastRefr (containersUpdate
             (l₁.foldl (fun s i => containersUpdate s i.object) []) m.object))) ∧
    (wOffset.intersect rayRefr).map
        (fun xs => xs.map (fun i => (i.t, i.computeRefractiveIndices xs))) =
      .ok [(2, 1, 3/2), (11/4, 3/2, 2), (13/4, 2, 5/2), (19/4, 5/2, 5/2),
           (21/4, 5/2, 3/2), (6, 3/2, 1)] := by
  constructor
  · intro xs l₁ l₂ self m hxs hl hm
    rw [hxs]
    exact refrGo_decomp self m l₂ hm l₁ [] hl
  · with_unfolding_all decide

/-- Witness for claim C2 at a concrete decomposition of the offset-geometry
intersection list. -/
theorem claimC2_witness :
    (([⟨4, none, ⟨glassMat (3/2), Matrix4.identity, .sphere⟩⟩,
       ⟨6, none, ⟨glassMat (3/2), Matrix4.identity, .sphere⟩⟩] : List Intersection) =
        [] ++ (⟨4, none, ⟨glassMat (3/2), Matrix4.identity, .sphere⟩⟩ : Intersection) ::
          [⟨6, none, ⟨glassMat (3/2), Matrix4.identity, .sphere⟩⟩] ∧
      (∀ i ∈ ([] : List Intersection), Intersection.eqb i ⟨4, none, ⟨glassMat (3/2), Matrix4.identity, .sphere⟩⟩ = false) ∧
      Intersection.eqb ⟨4, none, ⟨glassMat (3/2), Matrix4.identity, .sphere⟩⟩
        ⟨4, none, ⟨glassMat (3/2), Matrix4.identity, .sphere⟩⟩ = true) ∧
    Intersection.computeRefractiveIndices
        ⟨4, none, ⟨glassMat (3/2), Matrix4.identity, .sphere⟩⟩
        [⟨4, none, ⟨glassMat (3/2), Matrix4.identity, .sphere⟩⟩,
         ⟨6, none, ⟨glassMat (3/2), Matrix4.identity, .sphere⟩⟩] =
      (lastRefr (List.foldl (fun (s : List SimpleObject) (i : Intersection) =>
          containersUpdate s i.object) [] []),
       lastRefr (containersUpdate (List.foldl (fun (s : List SimpleObject) (i : Intersection) =>
            containersUpdate s i.object) [] [])
         (⟨4, none, ⟨glassMat (3/2), Matrix4.identity, .sphere⟩⟩ : Intersection).object)) :=
  ⟨⟨rfl, by simp, by with_unfolding_all decide⟩,
   claimC2_refractive_indices.1 _ [] _ _ _ rfl (by simp) (by with_unfolding_all decide)⟩

set_option maxRecDepth 100000 in
/-- Counterexample to claim C2's concentric-spheres example: because
`PartialEq for Material` ignores `refractive_index`, the two inner-sphere
snapshots compare equal and the stack walk collapses, so the third crossing
yields `(1.5, 2.0)` rather than the claimed `(2.0, 2.5)`. -/
theorem claimC2_counterexample :
    (wConcentric.intersect rayRefr).map
        (fun xs => xs.map (fun i => (i.t, i.computeRefractiveIndices xs))) =
      .ok [(2, 1, 3/2), (3, 3/2, 2), (3, 3/2, 2), (5, 3/2, 2), (5, 3/2, 2), (6, 3/2, 1)] ∧
    (wConcentric.intersect rayRefr).map
        (fun xs => xs.map (fun i => (i.t, i.computeRefractiveIndices xs))) ≠
      .ok [(2, 1, 3/2), (3, 3/2, 2), (3, 2, 5/2), (5, 5/2, 5/2), (5, 5/2, 3/2), (6, 3/2, 1)] := by
  constructor
  · with_unfolding_all decide
  · with_unfolding_all decide



/-! ## Claim C8: degenerate ray-primitive configurations -/

theorem claimC8_degenerate_empty :
    (∀ r : Ray, |r.direction.y| < EPSILON → Plane.localIntersect r = []) ∧
    (∀ (tr : Triangle) (r : Ray),
        |tr.edge1.dot (r.direction.cross tr.edge2)| < EPSILON →
        tr.localIntersect r = []) ∧
    (∀ (c : Cone) (r : Ray),
        |r.direction.x ^ 2 - r.direction.y ^ 2 + r.direction.z ^ 2| < EPSILON →
        |2 * r.origin.x * r.direction.x - 2 * r.origin.y * r.direction.y +
          2 * r.origin.z * r.direction.z| < EPSILON →
        c.localIntersect r = []) := by
  refine ⟨?_, ?_, ?_⟩
  · intro r h
    simp [Plane.localIntersect, h]
  · intro tr r h
    simp [Triangle.localIntersect, h]
  · intro c r ha hb
    simp [Cone.localIntersect, ha, hb]

/-- Witness for claim C8 at concrete degenerate rays. -/
theorem claimC8_witness :
    (|(Ray.mk (Tuple.point 0 1 0) (Tuple.vector 1 0 0)).direction.y| < EPSILON ∧
      Plane.localIntersect (Ray.mk (Tuple.point 0 1 0) (Tuple.vector 1 0 0)) = []) ∧
    (|(Triangle.mk (Tuple.point 0 1 0) (Tuple.point (-1) 0 0) (Tuple.point 1 0 0)
          .flat).edge1.dot
        ((Ray.mk (Tuple.point 0 (-1) (-2)) (Tuple.vector 0 1 0)).direction.cross
          (Triangle.mk (Tuple.point 0 1 0) (Tuple.point (-1) 0 0) (Tuple.point 1 0 0)
            .flat).edge2)| < EPSILON ∧
      (Triangle.mk (Tuple.point 0 1 0) (Tuple.point (-1) 0 0) (Tuple.point 1 0 0)
          .flat).localIntersect
        (Ray.mk (Tuple.point 0 (-1) (-2)) (Tuple.vector 0 1 0)) = []) ∧
    ((Cone.mk 0 1 false).localIntersect
        (Ray.mk (Tuple.point 1 1 0) (Tuple.vector 1 1 0)) = []) :=
  ⟨⟨by with_unfolding_all decide,
    claimC8_degenerate_empty.1 _ (by with_unfolding_all decide)⟩,
   ⟨by with_unfolding_all decide,
    claimC8_degenerate_empty.2.1 _ _ (by with_unfolding_all decide)⟩,
   claimC8_degenerate_empty.2.2 _ _ (by with_unfolding_all decide) (by with_unfolding_all decide)⟩


/-! ## Claim C6: Schlick reflectance and shade_hit blending -/

theorem claimC6_schlick_blend :
    (∀ c : ComputedIntersection,
      (c.n1 > c.n2 →
          (c.n1 / c.n2) ^ 2 * (1 - (c.eyeVector.dot c.normalVector) ^ 2) > 1 →
          c.schlick = 1) ∧
      (c.n1 > c.n2 →
          ¬((c.n1 / c.n2) ^ 2 * (1 - (c.eyeVector.dot c.normalVector) ^ 2) > 1) →
          c.schlick =
            ((c.n1 - c.n2) / (c.n1 + c.n2)) ^ 2 +
              (1 - ((c.n1 - c.n2) / (c.n1 + c.n2)) ^ 2) *
                (1 - Rat.sqrt
                  (1 - (c.n1 / c.n2) ^ 2 *
                    (1 - (c.eyeVector.dot c.normalVector) ^ 2))) ^ 5) ∧
      (¬(c.n1 > c.n2) →
          c.schlick =
            ((c.n1 - c.n2) / (c.n1 + c.n2)) ^ 2 +
              (1 - ((c.n1 - c.n2) / (c.n1 + c.n2)) ^ 2) *
                (1 - c.eyeVector.dot c.normalVector) ^ 5)) ∧
    (∀ (fuel : ℕ) (w : World) (c : ComputedIntersection) (depth : ℤ) (s rc fc : Color),
      liftPanic (w.surfaceColor c) = .ok s →
      World.reflectedColorF fuel w c depth = .ok rc →
      World.refractedColorF fuel w c depth = .ok fc →
      World.shadeHitF fuel w c depth =
        .ok (if 0 < c.object.material.reflective ∧ 0 < c.object.material.transparency then
              (s.add (rc.smul c.schlick)).add (fc.smul (1 - c.schlick))
            else (s.add rc).add fc)) ∧
    (Intersection.prepareComputations i4glass rayFromOutside xsGlass).map
        ComputedIntersection.schlick = .ok (1/25) := by
  refine ⟨?_, ?_, ?_⟩
  · intro c
    refine ⟨?_, ?_, ?_⟩
    · intro h1 h2
      simp only [ComputedIntersection.schlick]
      rw [if_pos h1, if_pos h2]
    · intro h1 h2
      simp only [ComputedIntersection.schlick]
      rw [if_pos h1, if_neg h2]
    · intro h1
      simp only [ComputedIntersection.schlick]
      rw [if_neg h1]
  · intro fuel w c depth s rc fc hs hrc hfc
    rw [World.shadeHitF]
    rw [hs, hrc, hfc]
    rfl
  · with_unfolding_all decide



/-- Witness for claim C6 at concrete computed intersections. -/
theorem claimC6_witness :
    (compsTIR.n1 > compsTIR.n2 ∧
      (compsTIR.n1 / compsTIR.n2) ^ 2 *
        (1 - (compsTIR.eyeVector.dot compsTIR.normalVector) ^ 2) > 1 ∧
      compsTIR.schlick = 1) ∧
    (compsExit.n1 > compsExit.n2 ∧
      ¬((compsExit.n1 / compsExit.n2) ^ 2 *
        (1 - (compsExit.eyeVector.dot compsExit.normalVector) ^ 2) > 1) ∧
      compsExit.schlick =
        ((compsExit.n1 - compsExit.n2) / (compsExit.n1 + compsExit.n2)) ^ 2 +
          (1 - ((compsExit.n1 - compsExit.n2) / (compsExit.n1 + compsExit.n2)) ^ 2) *
            (1 - Rat.sqrt
              (1 - (compsExit.n1 / compsExit.n2) ^ 2 *
                (1 - (compsExit.eyeVector.dot compsExit.normalVector) ^ 2))) ^ 5) ∧
    (¬(compsEnter.n1 > compsEnter.n2) ∧
      compsEnter.schlick =
        ((compsEnter.n1 - compsEnter.n2) / (compsEnter.n1 + compsEnter.n2)) ^ 2 +
          (1 - ((compsEnter.n1 - compsEnter.n2) / (compsEnter.n1 + compsEnter.n2)) ^ 2) *
            (1 - compsEnter.eyeVector.dot compsEnter.normalVector) ^ 5) ∧
    (liftPanic (emptyWorld.surfaceColor compsEnter) = .ok Color.black ∧
      World.reflectedColorF 0 emptyWorld compsEnter 0 = .ok Color.black ∧
      World.refractedColorF 0 emptyWorld compsEnter 0 = .ok Color.black ∧
      World.shadeHitF 0 emptyWorld compsEnter 0 =
        .ok (if 0 < compsEnter.object.material.reflective ∧
              0 < compsEnter.object.material.transparency then
              (Color.black.add (Color.black.smul compsEnter.schlick)).add
                (Color.black.smul (1 - compsEnter.schlick))
            else (Color.black.add Color.black).add Color.black)) := by
  refine ⟨⟨?h1, ?h2, ?c1⟩, ⟨?h3, ?h4, ?c2⟩, ⟨?h5, ?c3⟩, ⟨?h6, ?h7, ?h8, ?c4⟩⟩
  case h1 => with_unfolding_all decide
  case h2 => with_unfolding_all decide
  case c1 =>
    exact (claimC6_schlick_blend.1 compsTIR).1 (by with_unfolding_all decide)
      (by with_unfolding_all decide)
  case h3 => with_unfolding_all decide
  case h4 => with_unfolding_all decide
  case c2 =>
    exact (claimC6_schlick_blend.1 compsExit).2.1 (by with_unfolding_all decide)
      (by with_unfolding_all decide)
  case h5 => with_unfolding_all decide
  case c3 =>
    exact (claimC6_schlick_blend.1 compsEnter).2.2 (by with_unfolding_all decide)
  case h6 => with_unfolding_all decide
  case h7 => with_unfolding_all decide
  case h8 => with_unfolding_all decide
  case c4 =>
    exact claimC6_schlick_blend.2.1 0 emptyWorld compsEnter 0 Color.black Color.black Color.black
      (by with_unfolding_all decide) (by with_unfolding_all decide)
      (by with_unfolding_all decide)

/-! ## Claim C3: depth-bounded shading recursion -/

theorem liftPanic_ne_ofuel (x : Except Unit α) : liftPanic x ≠ .error .outOfFuel := by
  cases x with
  | ok a => simp [liftPanic]
  | error e => cases e; simp [liftPanic]

theorem bind_ne_ofuel {x : Except RtError α} {f : α → Except RtError β}
    (hx : x ≠ .error .outOfFuel) (hf : ∀ a, f a ≠ .error .outOfFuel) :
    (x >>= f) ≠ .error .outOfFuel := by
  cases x with
  | ok a => simpa [Bind.bind, Except.bind] using hf a
  | error e =>
      simp only [Bind.bind, Except.bind]
      intro hc
      injection hc with h1
      exact hx (by rw [h1])

theorem reflected_black_of_depth (fuel : ℕ) (w : World)
    (c : ComputedIntersection) (d : ℤ) (hd : d ≤ 0) :
    World.reflectedColorF fuel w c d = .ok Color.black := by
  rw [World.reflectedColorF]
  rw [if_pos hd]
  rfl

theorem refracted_black_at_zero (fuel : ℕ) (w : World) (c : ComputedIntersection) :
    World.refractedColorF fuel w c 0 = .ok Color.black := by
  rw [World.refractedColorF]
  simp
  rfl

theorem shadeHit_zero_surface (fuel : ℕ) (w : World) (c : ComputedIntersection) :
    World.shadeHitF fuel w c 0 = liftPanic (w.surfaceColor c) := by
  rw [World.shadeHitF]
  rw [reflected_black_of_depth fuel w c 0 le_rfl, refracted_black_at_zero fuel w c]
  cases hs : liftPanic (w.surfaceColor c) with
  | error e => simp [Bind.bind, Except.bind]
  | ok s =>
      simp only [Bind.bind, Except.bind, pure, Except.pure, Except.ok.injEq]
      split
      · cases s; simp [Color.add, Color.smul, Color.black]
      · cases s; simp [Color.add, Color.black]

theorem reflected_ne_ofuel (fuel : ℕ) (w : World)
    (hA : ∀ (r : Ray) (d : ℤ), 0 ≤ d → d.toNat < fuel →
      World.colorAtF fuel w r d ≠ .error .outOfFuel)
    (c : ComputedIntersection) (d : ℤ) (hd : 0 ≤ d) (hf : d.toNat ≤ fuel) :
    World.reflectedColorF fuel w c d ≠ .error .outOfFuel := by
  rw [World.reflectedColorF]
  by_cases hdz : d ≤ 0
  · rw [if_pos hdz]; simp [pure, Except.pure]
  · rw [if_neg hdz]
    dsimp only
    split
    · apply bind_ne_ofuel
      · exact hA _ (d - 1) (by omega) (by omega)
      · intro a; simp [pure, Except.pure]
    · simp [pure, Except.pure]

theorem refracted_ne_ofuel (fuel : ℕ) (w : World)
    (hA : ∀ (r : Ray) (d : ℤ), 0 ≤ d → d.toNat < fuel →
      World.colorAtF fuel w r d ≠ .error .outOfFuel)
    (c : ComputedIntersection) (d : ℤ) (hd : 0 ≤ d) (hf : d.toNat ≤ fuel) :
    World.refractedColorF fuel w c d ≠ .error .outOfFuel := by
  rw [World.refractedColorF]
  dsimp only
  split
  · simp [pure, Except.pure]
  · rename_i hcond
    have hdz : d ≠ 0 := fun hc => hcond (Or.inl hc)
    apply bind_ne_ofuel
    · exact hA _ (d - 1) (by omega) (by omega)
    · intro a; simp [pure, Except.pure]

theorem shadeHit_ne_ofuel (fuel : ℕ) (w : World)
    (hA : ∀ (r : Ray) (d : ℤ), 0 ≤ d → d.toNat < fuel →
      World.colorAtF fuel w r d ≠ .error .outOfFuel)
    (c : ComputedIntersection) (d : ℤ) (hd : 0 ≤ d) (hf : d.toNat ≤ fuel) :
    World.shadeHitF fuel w c d ≠ .error .outOfFuel := by
  rw [World.shadeHitF]
  apply bind_ne_ofuel (liftPanic_ne_ofuel _)
  intro s
  apply bind_ne_ofuel (reflected_ne_ofuel fuel w hA c d hd hf)
  intro rc
  apply bind_ne_ofuel (refracted_ne_ofuel fuel w hA c d hd hf)
  intro fc
  simp [pure, Except.pure]

theorem colorAt_ne_ofuel :
    ∀ (fuel : ℕ) (w : World) (r : Ray) (d : ℤ), 0 ≤ d → d.toNat < fuel →
      World.colorAtF fuel w r d ≠ .error .outOfFuel := by
  intro fuel
  induction fuel with
  | zero => intro w r d hd hf; omega
  | succ fuel ih =>
      intro w r d hd hf
      rw [World.colorAtF]
      apply bind_ne_ofuel (liftPanic_ne_ofuel _)
      intro xs
      cases Intersection.hit xs with
      | none => simp [pure, Except.pure]
      | some i =>
          simp only
          apply bind_ne_ofuel (liftPanic_ne_ofuel _)
          intro comps
          exact shadeHit_ne_ofuel fuel w (fun r d hd hf => ih w r d hd hf) comps d hd
            (by omega)

/-- Claim C3: recursion is depth-bounded: `reflected_color` returns black
for depth ≤ 0, `refracted_color` returns black at depth 0, `shade_hit` at
depth 0 reduces to the pure surface contribution, and `color_at` never
exhausts the proof-level fuel when it exceeds the non-negative depth — the
source recursion always terminates. -/
theorem claimC3_depth_bounded :
    (∀ (fuel : ℕ) (w : World) (c : ComputedIntersection) (d : ℤ), d ≤ 0 →
        World.reflectedColorF fuel w c d = .ok Color.black) ∧
    (∀ (fuel : ℕ) (w : World) (c : ComputedIntersection),
        World.refractedColorF fuel w c 0 = .ok Color.black) ∧
    (∀ (fuel : ℕ) (w : World) (c : ComputedIntersection),
        World.shadeHitF fuel w c 0 = liftPanic (w.surfaceColor c)) ∧
    (∀ (fuel : ℕ) (w : World) (r : Ray) (d : ℤ), 0 ≤ d → d.toNat < fuel →
        World.colorAtF fuel w r d ≠ .error .outOfFuel) :=
  ⟨fun fuel w c d hd => reflected_black_of_depth fuel w c d hd,
   refracted_black_at_zero,
   shadeHit_zero_surface,
   colorAt_ne_ofuel⟩

/-- Witness for claim C3 at fuel 3, depth 1 on a concrete world. -/
theorem claimC3_witness :
    (((0 : ℤ) ≤ 0 ∧ (0 : ℤ).toNat < 1) ∧
      World.colorAtF 1 emptyWorld rayFromOutside 0 ≠ .error .outOfFuel) ∧
    ((0 : ℤ) ≤ 0 ∧
      World.reflectedColorF 0 emptyWorld compsEnter 0 = .ok Color.black) :=
  ⟨⟨⟨le_rfl, by with_unfolding_all decide⟩,
    claimC3_depth_bounded.2.2.2 1 emptyWorld rayFromOutside 0 le_rfl (by with_unfolding_all decide)⟩,
   ⟨le_rfl, claimC3_depth_bounded.1 0 emptyWorld compsEnter 0 le_rfl⟩⟩

/-! ## Claim C7: cube slab test -/

theorem maxIeee_not_nan {a b : F} (ha : ¬a.isNaN = true) (hb : ¬b.isNaN = true) :
    ¬(F.maxIeee a b).isNaN = true := by
  unfold F.maxIeee
  repeat' split
  all_goals first | exact ha | exact hb

theorem minIeee_not_nan {a b : F} (ha : ¬a.isNaN = true) (hb : ¬b.isNaN = true) :
    ¬(F.minIeee a b).isNaN = true := by
  unfold F.minIeee
  repeat' split
  all_goals first | exact ha | exact hb

theorem cmp_isSome {a b : F} (ha : ¬a.isNaN = true) (hb : ¬b.isNaN = true) :
    F.cmp a b ≠ none := by
  cases a <;> cases b <;> simp_all [F.cmp, F.isNaN]

theorem maxByStep_ok {a b : F} (ha : ¬a.isNaN = true) (hb : ¬b.isNaN = true) :
    F.maxByStep a b = .ok (F.maxIeee a b) := by
  have ha' : a.isNaN = false := by simpa using ha
  have hb' : b.isNaN = false := by simpa using hb
  cases hc : F.cmp a b with
  | none => exact absurd hc (cmp_isSome ha hb)
  | some o =>
      cases o with
      | lt =>
          have hgt : F.gt a b = false := by unfold F.gt; rw [hc]; rfl
          simp [F.maxByStep, hc, F.maxIeee, ha', hb', hgt]
      | eq =>
          have hgt : F.gt a b = false := by unfold F.gt; rw [hc]; rfl
          simp [F.maxByStep, hc, F.maxIeee, ha', hb', hgt]
      | gt =>
          have hgt : F.gt a b = true := by unfold F.gt; rw [hc]; rfl
          simp [F.maxByStep, hc, F.maxIeee, ha', hb', hgt]

theorem minByStep_ok {a b : F} (ha : ¬a.isNaN = true) (hb : ¬b.isNaN = true) :
    F.minByStep a b = .ok (F.minIeee a b) := by
  have ha' : a.isNaN = false := by simpa using ha
  have hb' : b.isNaN = false := by simpa using hb
  cases hc : F.cmp a b with
  | none => exact absurd hc (cmp_isSome ha hb)
  | some o =>
      cases o with
      | lt =>
          have hgt : F.gt a b = false := by unfold F.gt; rw [hc]; rfl
          simp [F.minByStep, hc, F.minIeee, ha', hb', hgt]
      | eq =>
          have hgt : F.gt a b = false := by unfold F.gt; rw [hc]; rfl
          simp [F.minByStep, hc, F.minIeee, ha', hb', hgt]
      | gt =>
          have hgt : F.gt a b = true := by unfold F.gt; rw [hc]; rfl
          simp [F.minByStep, hc, F.minIeee, ha', hb', hgt]

theorem maxBy3_ok {a b c : F} (ha : ¬a.isNaN = true) (hb : ¬b.isNaN = true)
    (hc : ¬c.isNaN = true) :
    F.maxBy3 a b c = .ok (F.maxIeee (F.maxIeee a b) c) := by
  unfold F.maxBy3
  rw [maxByStep_ok ha hb]
  simp only [Bind.bind, Except.bind]
  exact maxByStep_ok (maxIeee_not_nan ha hb) hc

theorem minBy3_ok {a b c : F} (ha : ¬a.isNaN = true) (hb : ¬b.isNaN = true)
    (hc : ¬c.isNaN = true) :
    F.minBy3 a b c = .ok (F.minIeee (F.minIeee a b) c) := by
  unfold F.minBy3
  rw [minByStep_ok ha hb]
  simp only [Bind.bind, Except.bind]
  exact minByStep_ok (minIeee_not_nan ha hb) hc

theorem checkAxis_not_nan (mq Mq o d : ℚ)
    (h : |d| ≥ EPSILON ∨ (mq - o ≠ 0 ∧ Mq - o ≠ 0)) :
    ¬(checkAxis (.fin mq) (.fin Mq) o d).1.isNaN = true ∧
    ¬(checkAxis (.fin mq) (.fin Mq) o d).2.isNaN = true := by
  have key : ∀ p : F × F, ¬p.1.isNaN = true → ¬p.2.isNaN = true →
      ¬(if F.gt p.1 p.2 then (p.2, p.1) else p).1.isNaN = true ∧
      ¬(if F.gt p.1 p.2 then (p.2, p.1) else p).2.isNaN = true := by
    intro p h1 h2
    split <;> exact ⟨by assumption, by assumption⟩
  unfold checkAxis
  dsimp only
  by_cases hd : |d| ≥ EPSILON
  · rw [if_pos hd]
    exact key _ (by simp [F.subQ, F.divQ, F.isNaN]) (by simp [F.subQ, F.divQ, F.isNaN])
  · rcases h with h | ⟨h1, h2⟩
    · exact absurd h hd
    · rw [if_neg hd]
      refine key _ ?_ ?_
      · simp only [F.subQ, F.mulInf]
        split
        · simp [F.isNaN]
        · split
          · simp [F.isNaN]
          · exact absurd (by linarith : mq - o = 0) h1
      · simp only [F.subQ, F.mulInf]
        split
        · simp [F.isNaN]
        · split
          · simp [F.isNaN]
          · exact absurd (by linarith : Mq - o = 0) h2



theorem gt_fin_ninf (q : ℚ) : F.gt (.fin q) .ninf = true := rfl
theorem gt_ninf_fin (q : ℚ) : F.gt .ninf (.fin q) = false := rfl
theorem gt_pinf_fin (q : ℚ) : F.gt .pinf (.fin q) = true := rfl
theorem gt_fin_pinf (q : ℚ) : F.gt (.fin q) .pinf = false := rfl

theorem checkAxis_div_fin (mq Mq o d : ℚ) (hd : |d| ≥ EPSILON) :
    ∃ a b, checkAxis (.fin mq) (.fin Mq) o d = (.fin a, .fin b) := by
  unfold checkAxis
  dsimp only
  rw [if_pos hd]
  dsimp only [F.subQ, F.divQ]
  split
  · exact ⟨(Mq - o) / d, (mq - o) / d, rfl⟩
  · exact ⟨(mq - o) / d, (Mq - o) / d, rfl⟩

theorem checkAxis_par_hi (o d : ℚ) (hd : ¬(|d| ≥ EPSILON)) (ho : 1 < o) :
    checkAxis (.fin (-1)) (.fin 1) o d = (.ninf, .ninf) := by
  unfold checkAxis
  dsimp only
  rw [if_neg hd]
  dsimp only [F.subQ]
  have e1 : F.mulInf (.fin (-1 - o)) = .ninf := by
    simp only [F.mulInf]
    rw [if_neg (by intro hc; simp at hc; linarith), if_pos (by simp; linarith)]
  have e2 : F.mulInf (.fin (1 - o)) = .ninf := by
    simp only [F.mulInf]
    rw [if_neg (by intro hc; simp at hc; linarith), if_pos (by simp; linarith)]
  rw [e1, e2]
  rw [show F.gt F.ninf F.ninf = false from rfl]
  simp

theorem checkAxis_par_lo (o d : ℚ) (hd : ¬(|d| ≥ EPSILON)) (ho : o < -1) :
    checkAxis (.fin (-1)) (.fin 1) o d = (.pinf, .pinf) := by
  unfold checkAxis
  dsimp only
  rw [if_neg hd]
  dsimp only [F.subQ]
  have e1 : F.mulInf (.fin (-1 - o)) = .pinf := by
    simp only [F.mulInf]
    rw [if_pos (by simp; linarith)]
  have e2 : F.mulInf (.fin (1 - o)) = .pinf := by
    simp only [F.mulInf]
    rw [if_pos (by simp; linarith)]
  rw [e1, e2]
  rw [show F.gt F.pinf F.pinf = false from rfl]
  simp



/-- Claim C7 (corrected): whenever no slab axis produces a NaN (each axis
has |direction| at or above EPSILON, or an origin off the slab planes), the
cube slab test returns the max-of-mins / min-of-maxes interval (empty when
tmin exceeds tmax), and a ray parallel to a slab but outside it misses; the
unrestricted totality stated by the spec is refuted by
`claimC7_counterexample`. -/
theorem claimC7_slab_characterization :
    (∀ r : Ray,
      (|r.direction.x| ≥ EPSILON ∨ (r.origin.x ≠ -1 ∧ r.origin.x ≠ 1)) →
      (|r.direction.y| ≥ EPSILON ∨ (r.origin.y ≠ -1 ∧ r.origin.y ≠ 1)) →
      (|r.direction.z| ≥ EPSILON ∨ (r.origin.z ≠ -1 ∧ r.origin.z ≠ 1)) →
      Cube.localIntersect r =
        .ok
          (if F.gt
              (F.maxIeee
                (F.maxIeee (checkAxis (.fin (-1)) (.fin 1) r.origin.x r.direction.x).1
                  (checkAxis (.fin (-1)) (.fin 1) r.origin.y r.direction.y).1)
                (checkAxis (.fin (-1)) (.fin 1) r.origin.z r.direction.z).1)
              (F.minIeee
                (F.minIeee (checkAxis (.fin (-1)) (.fin 1) r.origin.x r.direction.x).2
                  (checkAxis (.fin (-1)) (.fin 1) r.origin.y r.direction.y).2)
                (checkAxis (.fin (-1)) (.fin 1) r.origin.z r.direction.z).2)
          then []
          else
            [F.maxIeee
              (F.maxIeee (checkAxis (.fin (-1)) (.fin 1) r.origin.x r.direction.x).1
                (checkAxis (.fin (-1)) (.fin 1) r.origin.y r.direction.y).1)
              (checkAxis (.fin (-1)) (.fin 1) r.origin.z r.direction.z).1,
             F.minIeee
              (F.minIeee (checkAxis (.fin (-1)) (.fin 1) r.origin.x r.direction.x).2
                (checkAxis (.fin (-1)) (.fin 1) r.origin.y r.direction.y).2)
              (checkAxis (.fin (-1)) (.fin 1) r.origin.z r.direction.z).2])) ∧
    (∀ r : Ray,
      ¬(|r.direction.x| ≥ EPSILON) →
      (r.origin.x < -1 ∨ 1 < r.origin.x) →
      |r.direction.y| ≥ EPSILON →
      |r.direction.z| ≥ EPSILON →
      Cube.localIntersect r = .ok []) := by
  constructor
  · intro r hx hy hz
    have hx' : |r.direction.x| ≥ EPSILON ∨ (-1 - r.origin.x ≠ 0 ∧ 1 - r.origin.x ≠ 0) := by
      rcases hx with h | ⟨h1, h2⟩
      · exact Or.inl h
      · exact Or.inr ⟨fun hc => h1 (by linarith), fun hc => h2 (by linarith)⟩
    have hy' : |r.direction.y| ≥ EPSILON ∨ (-1 - r.origin.y ≠ 0 ∧ 1 - r.origin.y ≠ 0) := by
      rcases hy with h | ⟨h1, h2⟩
      · exact Or.inl h
      · exact Or.inr ⟨fun hc => h1 (by linarith), fun hc => h2 (by linarith)⟩
    have hz' : |r.direction.z| ≥ EPSILON ∨ (-1 - r.origin.z ≠ 0 ∧ 1 - r.origin.z ≠ 0) := by
      rcases hz with h | ⟨h1, h2⟩
      · exact Or.inl h
      · exact Or.inr ⟨fun hc => h1 (by linarith), fun hc => h2 (by linarith)⟩
    obtain ⟨hx1, hx2⟩ := checkAxis_not_nan (-1) 1 r.origin.x r.direction.x hx'
    obtain ⟨hy1, hy2⟩ := checkAxis_not_nan (-1) 1 r.origin.y r.direction.y hy'
    obtain ⟨hz1, hz2⟩ := checkAxis_not_nan (-1) 1 r.origin.z r.direction.z hz'
    unfold Cube.localIntersect cubeLocalIntersect
    dsimp only [TupleF.pointF]
    rw [maxBy3_ok hx1 hy1 hz1]
    simp only [Bind.bind, Except.bind]
    rw [minBy3_ok hx2 hy2 hz2]
    simp only [Bind.bind, Except.bind]
    split <;> rfl
  · intro r hdx hox hdy hdz
    obtain ⟨ya, yb, hyeq⟩ := checkAxis_div_fin (-1) 1 r.origin.y r.direction.y hdy
    obtain ⟨za, zb, hzeq⟩ := checkAxis_div_fin (-1) 1 r.origin.z r.direction.z hdz
    unfold Cube.localIntersect cubeLocalIntersect
    dsimp only [TupleF.pointF]
    rcases hox with hlo | hhi
    · rw [checkAxis_par_lo r.origin.x r.direction.x hdx hlo, hyeq, hzeq]
      rw [show F.maxBy3 F.pinf (.fin ya) (.fin za) = .ok F.pinf from rfl]
      simp only [Bind.bind, Except.bind]
      rw [minBy3_ok (by simp [F.isNaN]) (by simp [F.isNaN]) (by simp [F.isNaN])]
      simp only [Bind.bind, Except.bind]
      rw [show F.minIeee (F.minIeee F.pinf (.fin yb)) (.fin zb) =
            if F.gt (.fin yb) (.fin zb) then .fin zb else .fin yb from rfl]
      by_cases hyz : F.gt (.fin yb) (.fin zb) = true
      · rw [if_pos hyz, show F.gt F.pinf (F.fin zb) = true from rfl]
        simp [pure, Except.pure]
      · rw [if_neg hyz, show F.gt F.pinf (F.fin yb) = true from rfl]
        simp [pure, Except.pure]
    · rw [checkAxis_par_hi r.origin.x r.direction.x hdx hhi, hyeq, hzeq]
      rw [maxBy3_ok (by simp [F.isNaN]) (by simp [F.isNaN]) (by simp [F.isNaN])]
      simp only [Bind.bind, Except.bind]
      rw [show F.minBy3 F.ninf (.fin yb) (.fin zb) = .ok F.ninf from rfl]
      simp only [Bind.bind, Except.bind]
      rw [show F.maxIeee (F.maxIeee F.ninf (.fin ya)) (.fin za) =
            if F.gt (.fin ya) (.fin za) then .fin ya else .fin za from rfl]
      by_cases hyz : F.gt (.fin ya) (.fin za) = true
      · rw [if_pos hyz, show F.gt (F.fin ya) F.ninf = true from rfl]
        simp [pure, Except.pure]
      · rw [if_neg hyz, show F.gt (F.fin za) F.ninf = true from rfl]
        simp [pure, Except.pure]

/-- Counterexample to claim C7's totality: a ray starting exactly on a slab
plane with a direction component below EPSILON multiplies 0 by INFINITY,
producing a NaN that makes the `partial_cmp().unwrap()` in the
max-by/min-by fold panic. -/
theorem claimC7_counterexample :
    Cube.localIntersect ⟨Tuple.point 1 0 0, Tuple.vector 0 0 1⟩ = .error () := by
  with_unfolding_all decide

/-- Witness for claim C7 at concrete rays satisfying the non-NaN
hypotheses. -/
theorem claimC7_witness :
    ((|(1 : ℚ)| ≥ EPSILON ∨ ((5 : ℚ) ≠ -1 ∧ (5 : ℚ) ≠ 1)) ∧
      Cube.localIntersect ⟨Tuple.point 5 (1/2) 0, Tuple.vector (-1) 0 0⟩ = .ok [.fin 4, .fin 6]) ∧
    (¬(|(0 : ℚ)| ≥ EPSILON) ∧ ((2 : ℚ) < -1 ∨ (1 : ℚ) < 2) ∧
      Cube.localIntersect ⟨Tuple.point 2 0 0, Tuple.vector 0 1 1⟩ = .ok []) := by
  constructor
  · constructor
    · with_unfolding_all decide
    · have h := claimC7_slab_characterization.1 ⟨Tuple.point 5 (1/2) 0, Tuple.vector (-1) 0 0⟩
        (by with_unfolding_all decide) (by with_unfolding_all decide)
        (by with_unfolding_all decide)
      rw [h]
      with_unfolding_all decide
  · refine ⟨by with_unfolding_all decide, by with_unfolding_all decide, ?_⟩
    exact claimC7_slab_characterization.2 ⟨Tuple.point 2 0 0, Tuple.vector 0 1 1⟩
      (by with_unfolding_all decide) (by with_unfolding_all decide)
      (by with_unfolding_all decide) (by with_unfolding_all decide)

/-! ## C10: empty groups make bounding boxes and intersection fail -/

theorem mapM_map_eq (l : List α) (g : α → β) (f : β → Except Unit γ) :
    (l.map g).mapM f = l.mapM (fun a => f (g a)) := by
  induction l with
  | nil => rfl
  | cons a l ih =>
      rw [List.map_cons, List.mapM_cons, List.mapM_cons, ih]

theorem attach_mapM (l : List α) (f : α → Except Unit β) :
    l.attach.mapM (fun c => f c.1) = l.mapM f := by
  induction l with
  | nil => rfl
  | cons a l ih =>
      rw [List.attach_cons, List.mapM_cons, mapM_map_eq, List.mapM_cons]
      have he : (fun (x : {x // x ∈ l}) =>
          f ((fun y => (⟨y.1, by simp [y.2]⟩ : {x // x ∈ a :: l})) x).1) =
          fun (x : {x // x ∈ l}) => f x.1 := funext (fun x => rfl)
      rw [show (fun (x : {x // x ∈ l}) =>
          f ((match x with | ⟨y, h⟩ => (⟨y, by simp [h]⟩ : {x // x ∈ a :: l})) : {x // x ∈ a :: l}).1) =
          fun (x : {x // x ∈ l}) => f x.1 from funext (fun x => by cases x; rfl)]
      rw [ih]

theorem mapM_error_iff (l : List α) (f : α → Except Unit β) :
    l.mapM f = .error () ↔ ∃ a ∈ l, f a = .error () := by
  induction l with
  | nil =>
      rw [List.mapM_nil]
      simp [pure, Except.pure]
  | cons a l ih =>
      rw [List.mapM_cons]
      cases hfa : f a with
      | error e =>
          cases e
          simp only [Bind.bind, Except.bind]
          simp [hfa]
      | ok b =>
          simp only [Bind.bind, Except.bind]
          cases hrest : l.mapM f with
          | error e =>
              cases e
              rw [hrest] at ih
              simp only [Bind.bind, Except.bind]
              constructor
              · intro _
                obtain ⟨c, hc, hce⟩ := ih.mp rfl
                exact ⟨c, by simp [hc], hce⟩
              · intro _
                trivial
          | ok bs =>
              rw [hrest] at ih
              simp only [Bind.bind, Except.bind, pure, Except.pure]
              constructor
              · intro hc
                exact absurd hc (by simp)
              · rintro ⟨c, hc, hce⟩
                rcases List.mem_cons.mp hc with rfl | hc
                · rw [hfa] at hce
                  exact absurd hce (by simp)
                · exact absurd (ih.mpr ⟨c, hc, hce⟩) (by simp)

theorem mapM_ok_nil_iff (l : List α) (f : α → Except Unit β) (bs : List β)
    (h : l.mapM f = .ok bs) : bs = [] ↔ l = [] := by
  cases l with
  | nil =>
      rw [List.mapM_nil] at h
      simp only [pure, Except.pure, Except.ok.injEq] at h
      simp [← h]
  | cons a l =>
      rw [List.mapM_cons] at h
      cases hfa : f a with
      | error e =>
          rw [hfa] at h
          simp [Bind.bind, Except.bind] at h
      | ok b =>
          rw [hfa] at h
          simp only [Bind.bind, Except.bind] at h
          cases hrest : l.mapM f with
          | error e => rw [hrest] at h; simp at h
          | ok cs =>
              rw [hrest] at h
              simp only [pure, Except.pure, Except.ok.injEq] at h
              simp [← h]


theorem reduceUnion_eq_none_iff (bs : List BoundingBox) :
    reduceUnion bs = none ↔ bs = [] := by
  cases bs <;> simp [reduceUnion]

theorem attach_any_iff (l : List α) (p : α → Bool) :
    l.attach.any (fun c => p c.1) = true ↔ ∃ a ∈ l, p a = true := by
  rw [List.any_eq_true]
  constructor
  · rintro ⟨c, _, hpc⟩
    exact ⟨c.1, c.2, hpc⟩
  · rintro ⟨a, ha, hpa⟩
    exact ⟨⟨a, ha⟩, List.mem_attach _ _, hpa⟩

theorem bb_error_iff : ∀ (n : ℕ) (o : Object), sizeOf o ≤ n →
    (Object.boundingBox o = .error () ↔ hasEmptyGroup o = true) := by
  intro n
  induction n with
  | zero =>
      intro o ho
      cases o with
      | mk tr sh =>
          simp only [Object.mk.sizeOf_spec] at ho
          omega
  | succ n ih =>
      intro o ho
      cases o with
      | mk tr sh =>
          cases sh with
          | shape m s =>
              cases s with
              | prim p =>
                  rw [Object.boundingBox, hasEmptyGroup]
                  simp [Bind.bind, Except.bind, pure, Except.pure]
              | csg op l r =>
                  have hl : sizeOf l ≤ n := by
                    simp only [Object.mk.sizeOf_spec, ShapeOrGroup.shape.sizeOf_spec,
                      Shape.csg.sizeOf_spec] at ho
                    omega
                  have hr : sizeOf r ≤ n := by
                    simp only [Object.mk.sizeOf_spec, ShapeOrGroup.shape.sizeOf_spec,
                      Shape.csg.sizeOf_spec] at ho
                    omega
                  rw [Object.boundingBox, hasEmptyGroup]
                  simp only [Bind.bind, Except.bind]
                  cases hlb : Object.boundingBox l with
                  | error e =>
                      cases e
                      have : hasEmptyGroup l = true := (ih l hl).mp hlb
                      simp [this]
                  | ok lb =>
                      have hlf : hasEmptyGroup l = false := by
                        by_contra hc
                        have ht : hasEmptyGroup l = true := by
                          revert hc
                          cases hasEmptyGroup l <;> simp
                        rw [(ih l hl).mpr ht] at hlb
                        exact absurd hlb (by simp)
                      cases hrb : Object.boundingBox r with
                      | error e =>
                          cases e
                          have : hasEmptyGroup r = true := (ih r hr).mp hrb
                          simp [this, hlf]
                      | ok rb =>
                          have hrf : hasEmptyGroup r = false := by
                            by_contra hc
                            have ht : hasEmptyGroup r = true := by
                              revert hc
                              cases hasEmptyGroup r <;> simp
                            rw [(ih r hr).mpr ht] at hrb
                            exact absurd hrb (by simp)
                          simp [hlf, hrf, pure, Except.pure]
          | group g =>
              have hg : ∀ a ∈ g, sizeOf a ≤ n := by
                intro a hamem
                have := List.sizeOf_lt_of_mem hamem
                simp only [Object.mk.sizeOf_spec, ShapeOrGroup.group.sizeOf_spec] at ho
                omega
              rw [Object.boundingBox, hasEmptyGroup]
              rw [attach_mapM g Object.boundingBox]
              simp only [Bind.bind, Except.bind]
              cases hm : g.mapM Object.boundingBox with
              | error e =>
                  cases e
                  have hex : ∃ a ∈ g, Object.boundingBox a = .error () :=
                    (mapM_error_iff g Object.boundingBox).mp hm
                  constructor
                  · intro _
                    obtain ⟨a, ha, hae⟩ := hex
                    have : hasEmptyGroup a = true := (ih a (hg a ha)).mp hae
                    rw [Bool.or_eq_true, attach_any_iff]
                    exact Or.inr ⟨a, ha, this⟩
                  · intro _
                    rfl
              | ok bs =>
                  have hnoerr : ∀ a ∈ g, hasEmptyGroup a = false := by
                    intro a ha
                    by_contra hc
                    have ht : hasEmptyGroup a = true := by
                      revert hc
                      cases hasEmptyGroup a <;> simp
                    have hae := (ih a (hg a ha)).mpr ht
                    have := (mapM_error_iff g Object.boundingBox).mpr ⟨a, ha, hae⟩
                    rw [hm] at this
                    exact absurd this (by simp)
                  cases g with
                  | nil =>
                      have hbs : bs = [] := (mapM_ok_nil_iff [] _ bs hm).mpr rfl
                      subst hbs
                      simp [reduceUnion, List.isEmpty]
                  | cons a g' =>
                      have hbsne : bs ≠ [] := by
                        intro hbs
                        have := (mapM_ok_nil_iff (a :: g') _ bs hm).mp hbs
                        simp at this
                      cases bs with
                      | nil => exact absurd rfl hbsne
                      | cons b bs' =>
                          simp only [reduceUnion, pure, Except.pure]
                          constructor
                          · intro hc
                            exact absurd hc (by simp)
                          · intro hR
                            rw [Bool.or_eq_true] at hR
                            rcases hR with hR | hR
                            · simp [List.isEmpty] at hR
                            · obtain ⟨c, _, hce⟩ := (attach_any_iff (a :: g')
                                (fun x => hasEmptyGroup x)).mp hR
                              rw [hnoerr c (by assumption)] at hce
                              exact absurd hce (by simp)

theorem intersect_error_of_empty (o : Object) (r : Ray)
    (h : Object.boundingBox o = .error ()) : Object.intersect o r = .error () := by
  rw [Object.intersect]
  simp only [Bind.bind, Except.bind]
  rw [h]

/-- Claim C10: an object bounding box fails exactly when a reachable group node has
no children, and on such objects intersection fails for every ray instead of
returning no hits. -/
theorem claimC10_empty_group_failure :
    ∀ (o : Object),
      (Object.boundingBox o = .error () ↔ hasEmptyGroup o = true) ∧
      (hasEmptyGroup o = true → ∀ r : Ray, Object.intersect o r = .error ()) := by
  intro o
  refine ⟨bb_error_iff (sizeOf o) o le_rfl, ?_⟩
  intro h r
  exact intersect_error_of_empty o r ((bb_error_iff (sizeOf o) o le_rfl).mpr h)

/-- Witness for claim C10 on a literal empty group. -/
theorem claimC10_witness :
    hasEmptyGroup (Object.mk Matrix4.identity (.group [])) = true ∧
    Object.boundingBox (Object.mk Matrix4.identity (.group [])) = .error () ∧
    Object.intersect (Object.mk Matrix4.identity (.group []))
      ⟨Tuple.point 0 0 0, Tuple.vector 0 0 1⟩ = .error () := by
  have hc := claimC10_empty_group_failure (Object.mk Matrix4.identity (.group []))
  have hemp : hasEmptyGroup (Object.mk Matrix4.identity (.group [])) = true := by
    with_unfolding_all decide
  exact ⟨hemp, hc.1.mpr hemp, hc.2 hemp _⟩


/-! ## C9: shadow test -/

theorem eqbM_withTransp (a b : Material) (q : ℚ) :
    Material.eqb (a.withTransp q) (b.withTransp q) = Material.eqb a b := rfl

theorem eqbS_withTransp (a b : SimpleObject) (q : ℚ) :
    SimpleObject.eqb (a.withTransp q) (b.withTransp q) = SimpleObject.eqb a b := rfl

theorem any_congr (l : List α) (p r : α → Bool) (h : ∀ a ∈ l, p a = r a) :
    l.any p = l.any r := by
  induction l with
  | nil => rfl
  | cons a l ih =>
      simp only [List.any_cons]
      rw [h a (by simp), ih (fun b hb => h b (by simp [hb]))]

theorem any_map_general (l : List α) (f : α → β) (p : β → Bool) :
    (l.map f).any p = l.any (fun a => p (f a)) := by
  induction l with
  | nil => rfl
  | cons a l ih => rw [List.map_cons, List.any_cons, List.any_cons, ih]

theorem attach_any_eq (l : List α) (p : α → Bool) :
    l.attach.any (fun c => p c.1) = l.any p := by
  induction l with
  | nil => rfl
  | cons a l ih =>
      rw [List.attach_cons, List.any_cons, List.any_cons, any_map_general]
      rw [show (fun (x : {x // x ∈ l}) =>
          p ((match x with | ⟨y, h⟩ => (⟨y, by simp [h]⟩ : {x // x ∈ a :: l})) : {x // x ∈ a :: l}).1) =
          fun (x : {x // x ∈ l}) => p x.1 from funext (fun x => by cases x; rfl)]
      rw [ih]

theorem mapM_congr (l : List α) (f g : α → Except Unit β) (h : ∀ a ∈ l, f a = g a) :
    l.mapM f = l.mapM g := by
  induction l with
  | nil => rfl
  | cons a l ih =>
      rw [List.mapM_cons, List.mapM_cons, h a (by simp),
        ih (fun b hb => h b (by simp [hb]))]

theorem mapM_map_except (l : List α) (f : α → Except Unit β) (g : β → γ) :
    l.mapM (fun a => (f a).map g) = (l.mapM f).map (List.map g) := by
  induction l with
  | nil => rfl
  | cons a l ih =>
      rw [List.mapM_cons, List.mapM_cons]
      simp only [Bind.bind]
      rw [ih]
      cases hfa : f a with
      | error e =>
          cases e
          simp [Except.bind, Except.map]
      | ok b =>
          cases hrest : l.mapM f with
          | error e =>
              cases e
              simp [Except.bind, Except.map]
          | ok bs =>
              simp [Except.bind, Except.map, pure, Except.pure]

theorem includes_withTransp : ∀ (n : ℕ) (o : Object), sizeOf o ≤ n →
    ∀ (s : SimpleObject) (q : ℚ),
      (Object.withTransp q o).includes (s.withTransp q) = o.includes s := by
  intro n
  induction n with
  | zero =>
      intro o ho
      cases o with
      | mk tr sh =>
          simp only [Object.mk.sizeOf_spec] at ho
          omega
  | succ n ih =>
      intro o ho s q
      cases o with
      | mk tr sh =>
          cases sh with
          | shape m sp =>
              cases sp with
              | prim p =>
                  simp only [Object.withTransp, Object.includes]
                  exact eqbS_withTransp ⟨m, tr, p⟩ s q
              | csg op l r =>
                  have hl : sizeOf l ≤ n := by
                    simp only [Object.mk.sizeOf_spec, ShapeOrGroup.shape.sizeOf_spec,
                      Shape.csg.sizeOf_spec] at ho
                    omega
                  have hr : sizeOf r ≤ n := by
                    simp only [Object.mk.sizeOf_spec, ShapeOrGroup.shape.sizeOf_spec,
                      Shape.csg.sizeOf_spec] at ho
                    omega
                  simp only [Object.withTransp, Object.includes]
                  rw [ih l hl s q, ih r hr s q]
          | group g =>
              have hg : ∀ a ∈ g, sizeOf a ≤ n := by
                intro a hamem
                have := List.sizeOf_lt_of_mem hamem
                simp only [Object.mk.sizeOf_spec, ShapeOrGroup.group.sizeOf_spec] at ho
                omega
              simp only [Object.withTransp, Object.includes]
              exact ((attach_any_eq (g.attach.map (fun c => Object.withTransp q c.1))
                  (fun o => o.includes (s.withTransp q))).trans
                ((any_map_general g.attach (fun c => Object.withTransp q c.1)
                  (fun o => o.includes (s.withTransp q))).trans
                (any_congr g.attach _ _ (fun c _ => ih c.1 (hg c.1 c.2) s q))))

theorem restamp_withTransp (tr : Matrix4) (i : Intersection) (q : ℚ) :
    restamp tr (i.withTransp q) = (restamp tr i).withTransp q := rfl

theorem filterGo_withTransp (op : CsgOp) (left : Object) (q : ℚ) :
    ∀ (xs : List Intersection) (inl inr : Bool),
      filterIntersectionsGo op (Object.withTransp q left) inl inr
          (xs.map (fun i => i.withTransp q)) =
        (filterIntersectionsGo op left inl inr xs).map (fun i => i.withTransp q) := by
  intro xs
  induction xs with
  | nil => intro inl inr; rfl
  | cons i rest ih =>
      intro inl inr
      simp only [List.map_cons, filterIntersectionsGo]
      have hinc : (Object.withTransp q left).includes (i.withTransp q).object =
          left.includes i.object :=
        includes_withTransp (sizeOf left) left le_rfl i.object q
      rw [hinc]
      by_cases hk : CsgOp.intersectionAllowed op (left.includes i.object) inl inr = true
      · rw [if_pos hk, if_pos hk, List.map_cons, ih]
      · rw [if_neg hk, if_neg hk, ih]

theorem bb_withTransp : ∀ (n : ℕ) (o : Object), sizeOf o ≤ n → ∀ (q : ℚ),
    Object.boundingBox (Object.withTransp q o) = Object.boundingBox o := by
  intro n
  induction n with
  | zero =>
      intro o ho
      cases o with
      | mk tr sh =>
          simp only [Object.mk.sizeOf_spec] at ho
          omega
  | succ n ih =>
      intro o ho q
      cases o with
      | mk tr sh =>
          cases sh with
          | shape m sp =>
              cases sp with
              | prim p =>
                  simp only [Object.withTransp]
                  rw [Object.boundingBox, Object.boundingBox]
              | csg op l r =>
                  have hl : sizeOf l ≤ n := by
                    simp only [Object.mk.sizeOf_spec, ShapeOrGroup.shape.sizeOf_spec,
                      Shape.csg.sizeOf_spec] at ho
                    omega
                  have hr : sizeOf r ≤ n := by
                    simp only [Object.mk.sizeOf_spec, ShapeOrGroup.shape.sizeOf_spec,
                      Shape.csg.sizeOf_spec] at ho
                    omega
                  simp only [Object.withTransp]
                  rw [Object.boundingBox, Object.boundingBox]
                  simp only [Bind.bind, Except.bind]
                  rw [ih l hl q, ih r hr q]
          | group g =>
              have hg : ∀ a ∈ g, sizeOf a ≤ n := by
                intro a hamem
                have := List.sizeOf_lt_of_mem hamem
                simp only [Object.mk.sizeOf_spec, ShapeOrGroup.group.sizeOf_spec] at ho
                omega
              simp only [Object.withTransp]
              rw [Object.boundingBox, Object.boundingBox]
              have hmm : (g.attach.map (fun c => Object.withTransp q c.1)).attach.mapM
                  (fun c => c.1.boundingBox) = g.attach.mapM (fun c => c.1.boundingBox) :=
                (attach_mapM (g.attach.map (fun c => Object.withTransp q c.1))
                    Object.boundingBox).trans
                  ((mapM_map_eq g.attach (fun c => Object.withTransp q c.1)
                    Object.boundingBox).trans
                  (mapM_congr g.attach _ _ (fun c _ => ih c.1 (hg c.1 c.2) q)))
              simp only [Bind.bind]
              rw [hmm]



theorem intersect_withTransp : ∀ (n : ℕ) (o : Object), sizeOf o ≤ n → ∀ (q : ℚ),
    (∀ r : Ray, Object.localIntersect (Object.withTransp q o) r =
      (Object.localIntersect o r).map (List.map (fun i => i.withTransp q))) ∧
    (∀ r : Ray, Object.intersect (Object.withTransp q o) r =
      (Object.intersect o r).map (List.map (fun i => i.withTransp q))) := by
  intro n
  induction n with
  | zero =>
      intro o ho
      cases o with
      | mk tr sh =>
          simp only [Object.mk.sizeOf_spec] at ho
          omega
  | succ n ih =>
      intro o ho q
      have hloc : ∀ r : Ray, Object.localIntersect (Object.withTransp q o) r =
          (Object.localIntersect o r).map (List.map (fun i => i.withTransp q)) := by
        intro r
        cases o with
        | mk tr sh =>
            cases sh with
            | shape m sp =>
                cases sp with
                | prim p =>
                    simp only [Object.withTransp]
                    rw [Object.localIntersect, Object.localIntersect]
                    simp only [Bind.bind]
                    cases hp : Prim.localIntersect p r with
                    | error e =>
                        cases e
                        rfl
                    | ok ts =>
                        simp only [Except.bind, Except.map, pure, Except.pure]
                        rw [List.map_map]
                        exact congrArg Except.ok (List.map_congr_left
                          (fun tor _ => by cases tor <;> rfl))
                | csg op l rr =>
                    have hl : sizeOf l ≤ n := by
                      simp only [Object.mk.sizeOf_spec, ShapeOrGroup.shape.sizeOf_spec,
                        Shape.csg.sizeOf_spec] at ho
                      omega
                    have hr : sizeOf rr ≤ n := by
                      simp only [Object.mk.sizeOf_spec, ShapeOrGroup.shape.sizeOf_spec,
                        Shape.csg.sizeOf_spec] at ho
                      omega
                    simp only [Object.withTransp]
                    rw [Object.localIntersect, Object.localIntersect]
                    simp only [Bind.bind]
                    rw [(ih l hl q).2 r, (ih rr hr q).2 r]
                    cases hli : Object.intersect l r with
                    | error e =>
                        cases e
                        rfl
                    | ok li =>
                        cases hri : Object.intersect rr r with
                        | error e =>
                            cases e
                            rfl
                        | ok ri =>
                            simp only [Except.bind, Except.map, pure, Except.pure]
                            rw [← List.map_append]
                            rw [show ((li ++ ri).map (fun i => i.withTransp q)).mergeSort
                                  (fun a b => a.t ≤ b.t) =
                                ((li ++ ri).mergeSort (fun a b => a.t ≤ b.t)).map
                                  (fun i => i.withTransp q) from
                              (@List.map_mergeSort Intersection Intersection
                                (fun a b => decide (a.t ≤ b.t))
                                (fun a b => decide (a.t ≤ b.t))
                                (fun i => i.withTransp q) (li ++ ri)
                                (fun a _ b _ => rfl)).symm]
                            rw [show filterIntersections op (Object.withTransp q l)
                                  (((li ++ ri).mergeSort (fun a b => a.t ≤ b.t)).map
                                    (fun i => i.withTransp q)) =
                                (filterIntersections op l
                                  ((li ++ ri).mergeSort (fun a b => a.t ≤ b.t))).map
                                  (fun i => i.withTransp q) from
                              filterGo_withTransp op l q _ false false]
                            rw [List.map_map, List.map_map]
                            exact congrArg Except.ok (List.map_congr_left
                              (fun i _ => restamp_withTransp tr i q))
            | group g =>
                have hg : ∀ a ∈ g, sizeOf a ≤ n := by
                  intro a hamem
                  have := List.sizeOf_lt_of_mem hamem
                  simp only [Object.mk.sizeOf_spec, ShapeOrGroup.group.sizeOf_spec] at ho
                  omega
                simp only [Object.withTransp]
                rw [Object.localIntersect, Object.localIntersect]
                have hmapm : (g.attach.map (fun c => Object.withTransp q c.1)).attach.mapM
                    (fun c => c.1.intersect r) =
                    (g.attach.mapM (fun (c : {x // x ∈ g}) => c.1.intersect r)).map
                      (List.map (List.map (fun i => i.withTransp q))) :=
                  (attach_mapM (g.attach.map (fun c => Object.withTransp q c.1))
                      (fun o => o.intersect r)).trans
                    ((mapM_map_eq g.attach (fun c => Object.withTransp q c.1)
                      (fun o => o.intersect r)).trans
                    ((mapM_congr g.attach _ _
                      (fun (c : {x // x ∈ g}) _ => (ih c.1 (hg c.1 c.2) q).2 r)).trans
                    (mapM_map_except g.attach (fun c => c.1.intersect r)
                      (List.map (fun i => i.withTransp q)))))
                simp only [Bind.bind]
                rw [hmapm]
                cases hxss : g.attach.mapM (fun c => c.1.intersect r) with
                | error e =>
                    cases e
                    rfl
                | ok xss =>
                    simp only [Except.bind, Except.map, pure, Except.pure]
                    rw [← List.map_flatten, List.map_map, List.map_map]
                    exact congrArg Except.ok (List.map_congr_left
                      (fun i _ => restamp_withTransp tr i q))
      refine ⟨hloc, ?_⟩
      intro r
      rw [Object.intersect, Object.intersect, bb_withTransp (sizeOf o) o le_rfl q]
      cases hbb : Object.boundingBox o with
      | error e =>
          cases e
          rfl
      | ok bb =>
          simp only [Bind.bind, Except.bind]
          cases hib : BoundingBox.intersectB bb r with
          | error e =>
              cases e
              rfl
          | ok hitB =>
              simp only [Except.bind]
              have htr : (Object.withTransp q o).transform = o.transform := by
                cases o with
                | mk tr sh =>
                    cases sh with
                    | shape m sp =>
                        cases sp <;> simp only [Object.withTransp, Object.transform]
                    | group g => simp only [Object.withTransp, Object.transform]
              by_cases hB : hitB = true
              · rw [hB]
                rw [if_pos rfl, if_pos rfl]
                rw [htr]
                cases hinv : liftOpt (Matrix4.inverse o.transform) with
                | error e =>
                    cases e
                    rfl
                | ok inv =>
                    simp only [Except.bind]
                    exact hloc (r.transformM inv)
              · have hB2 : hitB = false := by
                  revert hB
                  cases hitB <;> simp
                rw [hB2]
                rw [if_neg (by simp), if_neg (by simp)]
                simp [Except.map, pure, Except.pure]


theorem worldIntersect_withTransp (w : World) (r : Ray) (q : ℚ) :
    World.intersect (World.withTransp q w) r =
      (World.intersect w r).map (List.map (fun i => i.withTransp q)) := by
  rw [World.intersect, World.intersect]
  simp only [World.withTransp]
  have hm : (w.objects.map (Object.withTransp q)).mapM
      (fun (o : Object) => o.intersect r) =
      (w.objects.mapM (fun (o : Object) => o.intersect r)).map
        (List.map (List.map (fun i => i.withTransp q))) :=
    (mapM_map_eq w.objects (Object.withTransp q) (fun o => o.intersect r)).trans
      ((mapM_congr w.objects _ _
        (fun o _ => (intersect_withTransp (sizeOf o) o le_rfl q).2 r)).trans
      (mapM_map_except w.objects (fun o => o.intersect r)
        (List.map (fun i => i.withTransp q))))
  simp only [Bind.bind]
  rw [hm]
  cases hxss : w.objects.mapM (fun o => o.intersect r) with
  | error e =>
      cases e
      rfl
  | ok xss =>
      simp only [Except.bind, Except.map, pure, Except.pure]
      rw [← List.map_flatten]
      rw [show (xss.flatten.map (fun i => i.withTransp q)).mergeSort
            (fun a b => a.t ≤ b.t) =
          (xss.flatten.mergeSort (fun a b => a.t ≤ b.t)).map
            (fun i => i.withTransp q) from
        (@List.map_mergeSort Intersection Intersection
          (fun a b => decide (a.t ≤ b.t)) (fun a b => decide (a.t ≤ b.t))
          (fun i => i.withTransp q) xss.flatten (fun a _ b _ => rfl)).symm]

theorem minFold_cons (y x : Intersection) (ys : List Intersection) :
    minFold y (x :: ys) = minFold (if x.t < y.t then x else y) ys := by
  simp only [minFold, List.foldl_cons]

theorem minFold_withTransp (ys : List Intersection) : ∀ (y : Intersection) (q : ℚ),
    minFold (y.withTransp q) (ys.map (fun i => i.withTransp q)) =
      (minFold y ys).withTransp q := by
  induction ys with
  | nil => intro y q; rfl
  | cons x ys ih =>
      intro y q
      rw [List.map_cons, minFold_cons, minFold_cons]
      by_cases hc : x.t < y.t
      · rw [if_pos hc, if_pos (show (x.withTransp q).t < (y.withTransp q).t from hc)]
        exact ih x q
      · rw [if_neg hc, if_neg (show ¬(x.withTransp q).t < (y.withTransp q).t from hc)]
        exact ih y q

theorem hit_withTransp (xs : List Intersection) (q : ℚ) :
    Intersection.hit (xs.map (fun i => i.withTransp q)) =
      (Intersection.hit xs).map (fun i => i.withTransp q) := by
  rw [hit_eq_minFold, hit_eq_minFold]
  have hf : (xs.map (fun i => i.withTransp q)).filter (fun i => decide (0 ≤ i.t)) =
      (xs.filter (fun i => decide (0 ≤ i.t))).map (fun i => i.withTransp q) := by
    rw [List.filter_map]
    exact rfl
  rw [hf]
  cases hfx : xs.filter (fun i => decide (0 ≤ i.t)) with
  | nil => rfl
  | cons y ys =>
      rw [List.map_cons]
      simp only [Option.map]
      exact congrArg some (minFold_withTransp ys y q)

theorem hit_nonneg (xs : List Intersection) (h : Intersection)
    (hh : Intersection.hit xs = some h) : 0 ≤ h.t := by
  rw [hit_eq_minFold] at hh
  cases hf : xs.filter (fun i => decide (0 ≤ i.t)) with
  | nil =>
      rw [hf] at hh
      exact absurd hh (by simp)
  | cons y ys =>
      rw [hf] at hh
      have hmem : minFold y ys ∈ y :: ys := by
        obtain ⟨l₁, l₂, hdec, _, _⟩ := minFold_spec ys y
        rw [hdec]
        exact List.mem_append_right l₁ (List.mem_cons_self _ _)
      have hmf : minFold y ys ∈ xs.filter (fun i => decide (0 ≤ i.t)) := by
        rw [hf]
        exact hmem
      have hp := List.of_mem_filter hmf
      simp only [Option.some.injEq] at hh
      rw [← hh]
      exact of_decide_eq_true hp

theorem isShadowed_withTransp (w : World) (point : Tuple) (light : Light) (q : ℚ) :
    World.isShadowed (World.withTransp q w) point light =
      World.isShadowed w point light := by
  rw [World.isShadowed, World.isShadowed]
  simp only [Bind.bind]
  rw [worldIntersect_withTransp]
  cases hxs : World.intersect w ⟨point, (light.position.sub point).normalize⟩ with
  | error e =>
      cases e
      rfl
  | ok xs =>
      simp only [Except.bind, Except.map]
      rw [hit_withTransp]
      cases hh : Intersection.hit xs with
      | none => rfl
      | some h =>
          simp only [Option.map]
          rfl


/-- Claim C9: `is_shadowed` casts the ray from the point toward the light
(origin the point, direction the normalized light offset) and reports shadow
exactly when the nearest non-negative hit of that ray lies strictly closer
than the light; materials play no role in the test, so remapping every
transparency in the world (in particular making every object fully
transparent) never changes the result. -/
theorem claimC9_is_shadowed :
    (∀ (w : World) (point : Tuple) (light : Light) (xs : List Intersection),
        World.intersect w ⟨point, (light.position.sub point).normalize⟩ = .ok xs →
        (World.isShadowed w point light = .ok true ↔
          ∃ hi, Intersection.hit xs = some hi ∧ 0 ≤ hi.t ∧
            hi.t < (light.position.sub point).magnitude)) ∧
    (∀ (w : World) (point : Tuple) (light : Light) (q : ℚ),
        World.isShadowed (World.withTransp q w) point light =
          World.isShadowed w point light) := by
  constructor
  · intro w point light xs hxs
    rw [World.isShadowed]
    simp only [Bind.bind]
    rw [hxs]
    simp only [Except.bind, pure, Except.pure]
    cases hh : Intersection.hit xs with
    | none =>
        constructor
        · intro hcontra
          exact absurd hcontra (by simp)
        · rintro ⟨hi, hhi, -, -⟩
          exact absurd hhi (by simp)
    | some hi0 =>
        constructor
        · intro ht
          have hdec : decide (hi0.t < (light.position.sub point).magnitude) = true := by
            injection ht with h
          exact ⟨hi0, rfl, hit_nonneg xs hi0 hh, of_decide_eq_true hdec⟩
        · rintro ⟨hi, hhi, -, hlt⟩
          injection hhi with he
          subst he
          exact congrArg Except.ok (decide_eq_true hlt)
  · exact isShadowed_withTransp

/-- Witness for claim C9: a default sphere blocks the light from
`(0,0,10)`, and still does when made fully transparent. -/
theorem claimC9_witness :
    World.isShadowed wShadow (Tuple.point 0 0 10) lightShadow = .ok true ∧
    World.isShadowed (World.withTransp 1 wShadow) (Tuple.point 0 0 10) lightShadow =
      .ok true := by
  have h1 : World.isShadowed wShadow (Tuple.point 0 0 10) lightShadow = .ok true := by
    refine (claimC9_is_shadowed.1 wShadow (Tuple.point 0 0 10) lightShadow xsShadow
      (by with_unfolding_all decide)).mpr ?_
    refine ⟨⟨9, none, ⟨Material.new, Matrix4.identity, .sphere⟩⟩, ?_, ?_, ?_⟩
    · with_unfolding_all decide
    · with_unfolding_all decide
    · with_unfolding_all decide
  refine ⟨h1, ?_⟩
  rw [claimC9_is_shadowed.2 wShadow (Tuple.point 0 0 10) lightShadow 1]
  exact h1


/-! ## C4: bounding-box pruning is not conservative -/

/-- Claim C4: refuted — on `sphTall` and `rayGraze` the world-space bounding-box
test returns false, so `Object::intersect` returns no hits, yet the unpruned
local machinery intersects the sphere twice: the slab test treats direction
components smaller than `EPSILON` as exactly parallel and prunes a subtree
that does produce hits, so the box test is not equivalent to (nor a sound
approximation of) skipping it. -/
theorem claimC4_prune_unsound :
    (do let bb ← Object.boundingBox sphTall
        bb.intersectB rayGraze) = .ok false ∧
    Object.intersect sphTall rayGraze = .ok [] ∧
    (Object.intersectNoPrune sphTall rayGraze).map List.length = .ok 2 ∧
    Object.intersect sphTall rayGraze ≠ Object.intersectNoPrune sphTall rayGraze := by
  refine ⟨?_, ?_, ?_, ?_⟩
  · with_unfolding_all decide
  · with_unfolding_all decide
  · with_unfolding_all decide
  · with_unfolding_all decide

end RayTracer
